import Mathlib

/-!
# Probabilistic-micropayment ticket validation (package `pm`) and `core.parseURI`

A shallow embedding of `pm/validator.go`, `pm/sigverifier.go` and of one function of
`core/transcoder.go`:

* `pm.BrokerSigVerifier.Verify`      (sigverifier.go, lines 35-58)
* `pm.BrokerValidator.IsValidTicket`   (validator.go, lines 41-68)
* `pm.BrokerValidator.IsWinningTicket` (validator.go, lines 74-79)
* `core.parseURI`                      (transcoder.go, lines 38-50)

Byte slices are lists of `UInt8`, `*big.Int` values are `Int`, a Go
`(bool, error)` result is a pair of a `Bool` and an `Option`, and every call
to a collaborator (the Broker, the signature verifier) is recorded, in order,
in the `calls` field of the result.  The library functions the code calls
(`crypto.Keccak256`, `common.LeftPadBytes`, `big.Int.Bytes`, `big.Int.SetBytes`,
`big.Int.Cmp`, `strings.Split`, `strconv.ParseUint`) are embedded next to it; ECDSA
public-key recovery is a parameter (`Secp256k1`).  Definitions come first, the spec-side definitions and the
stub collaborators next, the theorems last.
-/

/-- A Go byte slice. -/
abbrev ByteSeq := List UInt8

/-! ## `crypto.Keccak256` (go-ethereum): the Keccak-f[1600] sponge, rate 136 bytes -/
namespace crypto

/-- The 24 round constants of Keccak-f[1600]. -/
def roundConstants : List Nat :=
  [0x0000000000000001, 0x0000000000008082, 0x800000000000808A, 0x8000000080008000,
   0x000000000000808B, 0x0000000080000001, 0x8000000080008081, 0x8000000000008009,
   0x000000000000008A, 0x0000000000000088, 0x0000000080008009, 0x000000008000000A,
   0x000000008000808B, 0x800000000000008B, 0x8000000000008089, 0x8000000000008003,
   0x8000000000008002, 0x8000000000000080, 0x000000000000800A, 0x800000008000000A,
   0x8000000080008081, 0x8000000000008080, 0x0000000080000001, 0x8000000080008008]

/-- Rotation offsets of the rho step, indexed by lane number `x + 5 * y`. -/
def rotationOffsets : List Nat :=
  [0, 1, 62, 28, 27, 36, 44, 6, 55, 20, 3, 10, 43, 25, 39, 41, 45, 15, 21, 8, 18, 2, 61, 56, 14]

/-- Left rotation of a 64-bit lane. -/
def rotl64 (x n : Nat) : Nat := ((x <<< n) ||| (x >>> (64 - n))) % 2 ^ 64

/-- Lane `i` of a state of 25 lanes. -/
def lane (a : List Nat) (i : Nat) : Nat := a.getD i 0

/-- The theta step. -/
def theta (a : List Nat) : List Nat :=
  let c := (List.range 5).map fun x =>
    lane a x ^^^ lane a (x + 5) ^^^ lane a (x + 10) ^^^ lane a (x + 15) ^^^ lane a (x + 20)
  let d := (List.range 5).map fun x => lane c ((x + 4) % 5) ^^^ rotl64 (lane c ((x + 1) % 5)) 1
  (List.range 25).map fun i => lane a i ^^^ lane d (i % 5)

/-- The rho and pi steps: lane `(x, y)` rotated moves to `(y, 2x + 3y)`. -/
def rhoPi (a : List Nat) : List Nat :=
  (List.range 25).map fun i =>
    let src := (i % 5 + 3 * (i / 5)) % 5 + 5 * (i % 5)
    rotl64 (lane a src) (lane rotationOffsets src)

/-- The chi step. -/
def chi (b : List Nat) : List Nat :=
  (List.range 25).map fun i =>
    let y := i / 5
    lane b i ^^^
      ((lane b ((i % 5 + 1) % 5 + 5 * y) ^^^ (2 ^ 64 - 1)) &&& lane b ((i % 5 + 2) % 5 + 5 * y))

/-- The iota step: the round constant is added to lane 0. -/
def iota (rc : Nat) (a : List Nat) : List Nat :=
  match a with
  | [] => []
  | x :: xs => (x ^^^ rc) :: xs

/-- One round of Keccak-f[1600]. -/
def keccakRound (a : List Nat) (rc : Nat) : List Nat := iota rc (chi (rhoPi (theta a)))

/-- The permutation Keccak-f[1600]. -/
def keccakF (a : List Nat) : List Nat := roundConstants.foldl keccakRound a

/-- Little-endian value of a byte string. -/
def leWord (bs : ByteSeq) : Nat := bs.foldr (fun b acc => b.toNat + 256 * acc) 0

/-- Absorb one 136-byte block into the state and permute. -/
def absorbBlock (a : List Nat) (blk : ByteSeq) : List Nat :=
  keccakF ((List.range 25).map fun i =>
    if i < 17 then lane a i ^^^ leWord ((blk.drop (8 * i)).take 8) else lane a i)

/-- Keccak padding (domain byte `0x01`, final bit `0x80`) to a multiple of the rate. -/
def pad (data : ByteSeq) : ByteSeq :=
  let q := 136 - data.length % 136
  if q = 1 then data ++ [0x81]
  else data ++ [0x01] ++ List.replicate (q - 2) 0 ++ [0x80]

/-- The first `n` blocks of 136 bytes. -/
def blocks : Nat → ByteSeq → List ByteSeq
  | 0, _ => []
  | n + 1, bs => bs.take 136 :: blocks n (bs.drop 136)

/-- The first 32 bytes of the state, lanes in little-endian order. -/
def squeeze (a : List Nat) : ByteSeq :=
  (List.range 32).map fun i => UInt8.ofNat ((lane a (i / 8) >>> (8 * (i % 8))) % 256)

/-- Keccak-256 of one byte string. -/
def sum256 (data : ByteSeq) : ByteSeq :=
  let p := pad data
  squeeze ((blocks (p.length / 136) p).foldl absorbBlock (List.replicate 25 0))

/-- The variadic `crypto.Keccak256(data ...[]byte)`: the slices are written to the
hasher one after the other. -/
def Keccak256 (data : List ByteSeq) : ByteSeq := sum256 (data.foldr (fun b acc => b ++ acc) [])

end crypto

/-! ## `math/big`: the operations of `*big.Int` that the package uses -/
namespace big

/-- Big-endian digits of `n` in base 256, pushed in front of `acc`; `fuel` bounds the
number of digits. -/
def bytesCore : Nat → Nat → ByteSeq → ByteSeq
  | 0, _, acc => acc
  | fuel + 1, n, acc =>
    if n = 0 then acc else bytesCore fuel (n / 256) (UInt8.ofNat (n % 256) :: acc)

/-- The method `(*big.Int).Bytes`: the absolute value as a big-endian byte slice without
leading zero bytes (empty for 0). -/
def Bytes (x : Int) : ByteSeq := bytesCore x.natAbs x.natAbs []

/-- The method `(*big.Int).SetBytes`: the bytes read as a big-endian unsigned integer. -/
def SetBytes (buf : ByteSeq) : Int :=
  Int.ofNat (buf.foldl (fun acc b => acc * 256 + b.toNat) 0)

/-- The method `(*big.Int).Cmp`: -1, 0 or +1. -/
def Cmp (x y : Int) : Int := if x < y then -1 else if x = y then 0 else 1

end big

/-! ## go-ethereum `common`: addresses, hashes, padding -/
namespace ethcommon

/-- The type `common.Address`: an array of 20 bytes, compared byte by byte. -/
abbrev Address := { b : ByteSeq // b.length = 20 }

/-- The type `common.Hash`: an array of 32 bytes, compared byte by byte. -/
abbrev Hash := { b : ByteSeq // b.length = 32 }

/-- The composite literal `ethcommon.Address{}`: twenty zero bytes. -/
def zeroAddress : Address := ⟨List.replicate 20 0, by simp⟩

/-- The function `common.LeftPadBytes`: a slice that already has `l` bytes or more is
returned as it is, a shorter one is copied to the right end of `l` zero bytes. -/
def LeftPadBytes (slice : ByteSeq) (l : Nat) : ByteSeq :=
  if l ≤ slice.length then slice
  else List.replicate (l - slice.length) 0 ++ slice

end ethcommon

namespace crypto

/-- The function `crypto.Keccak256Hash`: the 32 bytes of the digest as a `common.Hash`. -/
def Keccak256Hash (data : List ByteSeq) : ethcommon.Hash :=
  ⟨Keccak256 data, by simp [Keccak256, sum256, squeeze]⟩

end crypto

/-! ## Package `pm` -/
namespace pm

open ethcommon

/-- Modelled from the spec: the type `Ticket` is declared outside the two files; the spec
(section 3) gives it the fields `recipient`, `sender`, `recipientRandHash` and `winProb`.
`WinProb` is a `*big.Int`; `none` is the nil pointer. -/
structure Ticket where
  Recipient : Address
  Sender : Address
  RecipientRandHash : Hash
  WinProb : Option Int
deriving DecidableEq

/-- An error value made outside the two files: by a Broker implementation or by
`crypto.SigToPub`. -/
structure ForeignError where
  msg : String
deriving DecidableEq

/-- A non-nil Go `error` as the two functions return it: a fresh value built with
`fmt.Errorf` from a message, or a collaborator's error value handed on unchanged. -/
inductive Error where
  | errorf (msg : String)
  | foreign (e : ForeignError)
deriving DecidableEq

/-- Modelled from the spec: the interface `Broker` is declared outside the two files; the
spec (section 6) gives it the two queries, each returning a boolean and a possible
failure, as in Go `(bool, error)`. -/
structure Broker where
  IsApprovedSigner : Address → Address → Bool × Option ForeignError
  IsUsedTicket : Ticket → Bool × Option ForeignError

/-- The interface `SigVerifier` (sigverifier.go, lines 10-16): `Verify` returns a `bool`. -/
structure SigVerifier where
  Verify : Address → ByteSeq → ByteSeq → Bool

/-- A call made to a collaborator, with its arguments. -/
inductive Call where
  | IsUsedTicket (ticket : Ticket)
  | IsApprovedSigner (owner candidate : Address)
  | Verify (addr : Address) (sig msg : ByteSeq)
deriving DecidableEq

/-- A Go result `(bool, error)` together with the calls made to collaborators, in order. -/
structure Outcome where
  ok : Bool
  err : Option Error
  calls : List Call
deriving DecidableEq

/-- The type `ecdsa.PublicKey`: a curve point. -/
structure PublicKey where
  X : Int
  Y : Int
deriving DecidableEq

/-- The two go-ethereum functions of recoverable ECDSA over secp256k1 that `Verify` calls:
`crypto.SigToPub(hash, sig)` and `crypto.PubkeyToAddress(pubkey)`. -/
structure Secp256k1 where
  SigToPub : ByteSeq → ByteSeq → Except ForeignError PublicKey
  PubkeyToAddress : PublicKey → Address

/-- The struct `BrokerSigVerifier` (sigverifier.go, lines 23-25). -/
structure BrokerSigVerifier where
  broker : Broker

/-- The struct `BrokerValidator` (validator.go, lines 25-29). -/
structure BrokerValidator where
  addr : Address
  broker : Broker
  sigVerifier : SigVerifier

/-- Modelled from the spec: the constant `bytes32Size` is declared outside the two files;
the spec (section 4.2) pads `recipientRand` "to exactly 32 bytes". -/
def bytes32Size : Nat := 32

/-- The bytes of a Go string made of the characters of `s`. -/
def stringBytes (s : String) : ByteSeq := s.toUTF8.data.toList

/-- The verb `%d` of `fmt.Sprintf` on a non-negative integer: its decimal digits. -/
def formatDecimal (n : Nat) : ByteSeq := stringBytes (Nat.repr n)

/-- The constant part of the format string in `Verify`. -/
def signedMessageHeader : ByteSeq := stringBytes "\x19Ethereum Signed Message:\n"

/-- The value `[]byte(personalMsg)` of `Verify` (sigverifier.go, line 36):
`fmt.Sprintf("\x19Ethereum Signed Message:\n%d%s", 32, msg)`; the verb `%s` writes the
bytes of `msg` as they are. -/
def personalMsg (msg : ByteSeq) : ByteSeq :=
  signedMessageHeader ++ formatDecimal 32 ++ msg

/-- The value `personalHash` of `Verify` (sigverifier.go, line 37). -/
def personalHash (msg : ByteSeq) : ByteSeq := crypto.Keccak256 [personalMsg msg]

/-- The method `BrokerSigVerifier.Verify` (sigverifier.go, lines 35-58). -/
def BrokerSigVerifier.Verify (ec : Secp256k1) (bsv : BrokerSigVerifier)
    (addr : Address) (sig msg : ByteSeq) : Outcome :=
  match ec.SigToPub (personalHash msg) sig with
  | .error err => ⟨false, some (.foreign err), []⟩
  | .ok pubkey =>
    let rec_ := ec.PubkeyToAddress pubkey
    if addr = rec_ then
      ⟨true, none, []⟩
    else
      match bsv.broker.IsApprovedSigner addr rec_ with
      | (_, some err) => ⟨false, some (.foreign err), [Call.IsApprovedSigner addr rec_]⟩
      | (approved, none) => ⟨approved, none, [Call.IsApprovedSigner addr rec_]⟩

/-- The method `BrokerValidator.IsValidTicket` (validator.go, lines 41-68).  The value
`ticket.Hash()` is the parameter `ticketHash`: the method `Hash` is declared with `Ticket`
outside the two files. -/
def BrokerValidator.IsValidTicket (ticketHash : Ticket → Hash) (bv : BrokerValidator)
    (ticket : Ticket) (sig : ByteSeq) (recipientRand : Int) : Outcome :=
  if ticket.Recipient ≠ bv.addr then
    ⟨false, some (.errorf "invalid ticket recipient"), []⟩
  else if ticket.Sender = zeroAddress then
    ⟨false, some (.errorf "invalid ticket sender"), []⟩
  else if crypto.Keccak256Hash [big.Bytes recipientRand] ≠ ticket.RecipientRandHash then
    ⟨false, some (.errorf "invalid preimage provided for hash commitment recipientRandHash"), []⟩
  else
    match bv.broker.IsUsedTicket ticket with
    | (_, some err) => ⟨false, some (.foreign err), [Call.IsUsedTicket ticket]⟩
    | (used, none) =>
      if used then
        ⟨false, some (.errorf "ticket has already been used"), [Call.IsUsedTicket ticket]⟩
      else if bv.sigVerifier.Verify ticket.Sender sig (ticketHash ticket).val then
        ⟨false, some (.errorf "invalid sender signature over ticket hash"),
          [Call.IsUsedTicket ticket, Call.Verify ticket.Sender sig (ticketHash ticket).val]⟩
      else
        ⟨true, none,
          [Call.IsUsedTicket ticket, Call.Verify ticket.Sender sig (ticketHash ticket).val]⟩

/-- The method `BrokerValidator.IsWinningTicket` (validator.go, lines 74-79); `none` is the
run-time panic of `Cmp` on a nil `ticket.WinProb`. -/
def BrokerValidator.IsWinningTicket (_bv : BrokerValidator)
    (ticket : Ticket) (sig : ByteSeq) (recipientRand : Int) : Option Bool :=
  let recipientRandBytes := LeftPadBytes (big.Bytes recipientRand) bytes32Size
  let res := big.SetBytes (crypto.Keccak256 [sig, recipientRandBytes])
  match ticket.WinProb with
  | none => none
  | some winProb => some (decide (big.Cmp res winProb < 0))

/-- The local variable `recipientRandBytes` of `IsWinningTicket` (validator.go, line 75):
the slice that is hashed after the signature. -/
def recipientRandBytes (recipientRand : Int) : ByteSeq :=
  LeftPadBytes (big.Bytes recipientRand) bytes32Size

end pm

/-! ## `strings` and `strconv`: the two library functions that `parseURI` calls -/
namespace strings

/-- The function `strings.Split(s, sep)` for a separator of one byte: the substrings of `s`
between the occurrences of `sep`; one more part than there are separators. -/
def Split : ByteSeq → UInt8 → List ByteSeq
  | [], _ => [[]]
  | c :: cs, sep =>
    if c = sep then [] :: Split cs sep
    else
      match Split cs sep with
      | [] => [[c]]
      | p :: ps => (c :: p) :: ps

end strings

namespace strconv

/-- The two causes of a `*strconv.NumError`: `ErrSyntax` and `ErrRange`. -/
inductive Cause where
  | ErrSyntax
  | ErrRange
deriving DecidableEq

/-- The type `strconv.NumError`: the failing function, its input and the cause. -/
structure NumError where
  Func : String
  Num : ByteSeq
  Err : Cause
deriving DecidableEq

/-- The function `syntaxError` of the package. -/
def syntaxError (fn : String) (str : ByteSeq) : NumError := ⟨fn, str, .ErrSyntax⟩

/-- The function `rangeError` of the package. -/
def rangeError (fn : String) (str : ByteSeq) : NumError := ⟨fn, str, .ErrRange⟩

/-- The constant `maxUint64`. -/
def maxUint64 : Nat := 2 ^ 64 - 1

/-- The function `lower`: `c | ('x' - 'X')`. -/
def lower (c : UInt8) : UInt8 := c ||| 0x20

/-- The digit that a byte stands for in `ParseUint` (base given explicitly, so no
underscore): `none` is the `default` branch of the switch. -/
def digitValue (c : UInt8) : Option Nat :=
  if 48 ≤ c.toNat ∧ c.toNat ≤ 57 then some (c.toNat - 48)
  else if 97 ≤ (lower c).toNat ∧ (lower c).toNat ≤ 122 then some ((lower c).toNat - 97 + 10)
  else none

/-- The loop of `ParseUint` over the bytes of the input, at base 10 and bit size 64, with
`uint64` arithmetic modulo `2^64`; `s0` is the whole input, `n` the value read so far. -/
def parseLoop (s0 : ByteSeq) : ByteSeq → Nat → Nat × Option NumError
  | [], n => (n, none)
  | c :: cs, n =>
    match digitValue c with
    | none => (0, some (syntaxError "ParseUint" s0))
    | some d =>
      if d ≥ 10 then (0, some (syntaxError "ParseUint" s0))
      else if n ≥ maxUint64 / 10 + 1 then (maxUint64, some (rangeError "ParseUint" s0))
      else
        let n10 := (n * 10) % 2 ^ 64
        let n1 := (n10 + d) % 2 ^ 64
        if n1 < n10 ∨ n1 > maxUint64 then (maxUint64, some (rangeError "ParseUint" s0))
        else parseLoop s0 cs n1

/-- The function `strconv.ParseUint(s, 10, 64)`, the only way `parseURI` calls it: the
value and a possible `*NumError`. -/
def ParseUint (s : ByteSeq) : Nat × Option NumError :=
  if s = [] then (0, some (syntaxError "ParseUint" s))
  else parseLoop s s 0

end strconv

/-! ## Package `core`: `parseURI` (transcoder.go, lines 38-50) -/
namespace core

/-- A non-nil Go `error` as `parseURI` returns it: built with `fmt.Errorf`, or the
`*strconv.NumError` of `ParseUint`. -/
inductive Error where
  | errorf (msg : String)
  | numError (e : strconv.NumError)
deriving DecidableEq

/-- The four results of `parseURI`. -/
structure ParsedURI where
  mid : ByteSeq
  profile : ByteSeq
  seqNo : Nat
  err : Option Error
deriving DecidableEq

/-- The function `parseURI` (transcoder.go, lines 38-50).  The three indexings are in range
when `len(parts) >= 3`, and `strings.Split` never returns an empty slice, so the default
value of `getD` is never used. -/
def parseURI (uri : ByteSeq) : ParsedURI :=
  let parts := strings.Split uri 0x2f
  if parts.length < 3 then
    ⟨[], [], 0, some (.errorf "BadURI")⟩
  else
    let mid := parts.getD (parts.length - 3) []
    let profile := parts.getD (parts.length - 2) []
    let parts2 := strings.Split (parts.getD (parts.length - 1) []) 0x2e
    let (seqNo, err) := strconv.ParseUint (parts2.getD 0 [])
    ⟨mid, profile, seqNo, err.map Error.numError⟩

end core

/-! ## Spec-side definitions: the words of the specification, to compare the code with -/
namespace Spec

open pm

/-- Failure *WrongRecipient* of the spec (section 7). -/
def WrongRecipient : Error := .errorf "invalid ticket recipient"

/-- Failure *InvalidSender* of the spec (section 7). -/
def InvalidSender : Error := .errorf "invalid ticket sender"

/-- Failure *InvalidPreimage* of the spec (section 7). -/
def InvalidPreimage : Error :=
  .errorf "invalid preimage provided for hash commitment recipientRandHash"

/-- Failure *TicketAlreadyUsed* of the spec (section 7). -/
def TicketAlreadyUsed : Error := .errorf "ticket has already been used"

/-- Failure *InvalidSignature* of the spec (section 7). -/
def InvalidSignature : Error := .errorf "invalid sender signature over ticket hash"

/-- The big-endian byte encoding of a natural number: its base-256 digits, most
significant first. -/
def bigEndian (n : Nat) : ByteSeq := ((Nat.digits 256 n).map UInt8.ofNat).reverse

/-- Left-padding with zero bytes to 32 bytes. -/
def leftPad32 (bs : ByteSeq) : ByteSeq := List.replicate (32 - bs.length) 0 ++ bs

/-- The hash of `recipientRand` as the spec defines the commitment (sections 3, 6 and 8):
the hash of its big-endian encoding zero-padded to 32 bytes. -/
def commitmentHash (recipientRand : Nat) : ethcommon.Hash :=
  crypto.Keccak256Hash [leftPad32 (bigEndian recipientRand)]

/-- The unsigned integer that a byte string denotes, most significant byte first. -/
def unsignedValue (bs : ByteSeq) : Nat := Nat.ofDigits 256 (bs.map UInt8.toNat).reverse

/-- The signed payload as the spec words it (section 4.1, step 1): the prefix, the decimal
length of the message, the message. -/
def personalPayload (msg : ByteSeq) : ByteSeq :=
  signedMessageHeader ++ formatDecimal msg.length ++ msg

end Spec

/-! ## Spec-side definitions for `parseURI` -/
namespace Spec

/-- A base-10 unsigned integer as text: one decimal digit or more, and nothing else. -/
def isDecimal (s : ByteSeq) : Bool :=
  !s.isEmpty && s.all fun c => decide (48 ≤ c.toNat ∧ c.toNat ≤ 57)

/-- The number that a text of decimal digits denotes. -/
def decimalValue (s : ByteSeq) : Nat := Nat.ofDigits 10 (s.map fun c => c.toNat - 48).reverse

/-- The part of a text before its first occurrence of the byte `sep`. -/
def before (sep : UInt8) (s : ByteSeq) : ByteSeq := s.takeWhile fun c => decide (c ≠ sep)

/-- The part that is `i` places from the end: `fromEnd 0` is the last part. -/
def fromEnd (parts : List ByteSeq) (i : Nat) : ByteSeq := parts.reverse.getD i []

end Spec

/-! ## Stub collaborators and sample values -/
namespace pm

open ethcommon

/-- The address whose twenty bytes are all `b`. -/
def addrOfByte (b : UInt8) : Address := ⟨List.replicate 20 b, by simp⟩

/-- The hash whose thirty-two bytes are all `b`. -/
def hashOfByte (b : UInt8) : Hash := ⟨List.replicate 32 b, by simp⟩

/-- A Broker that gives the same two answers to every query. -/
def stubBroker (approved used : Bool × Option ForeignError) : Broker :=
  ⟨fun _ _ => approved, fun _ => used⟩

/-- A signature verifier that gives the same answer to every query. -/
def stubSigVerifier (answer : Bool) : SigVerifier := ⟨fun _ _ _ => answer⟩

/-- A recovery that has the same result for every signature, and maps every key to `a`. -/
def stubSecp256k1 (recovered : Except ForeignError PublicKey) (a : Address) : Secp256k1 :=
  ⟨fun _ _ => recovered, fun _ => a⟩

/-- A stand-in for `Ticket.Hash`. -/
def stubTicketHash (t : Ticket) : Hash := t.RecipientRandHash

/-- A validator at address `01…01` with stub collaborators. -/
def stubValidator (used : Bool × Option ForeignError) (verified : Bool) : BrokerValidator :=
  ⟨addrOfByte 1, stubBroker (false, none) used, stubSigVerifier verified⟩

/-- A ticket from `02…02` to `01…01` that commits to `recipientRand` the way
`IsValidTicket` hashes it. -/
def sampleTicket (recipientRand : Int) : Ticket :=
  ⟨addrOfByte 1, addrOfByte 2, crypto.Keccak256Hash [big.Bytes recipientRand], some (2 ^ 255)⟩

end pm

/-! ## Theorems -/
namespace pm

open ethcommon Spec

/-- What `IsValidTicket` returns once the recipient, sender and preimage checks pass and the
Broker answers "not used" without failure: the signature verifier alone decides, and a
signature that verifies is the one that is turned down. -/
theorem IsValidTicket_of_checks (ticketHash : Ticket → Hash) (bv : BrokerValidator)
    (ticket : Ticket) (sig : ByteSeq) (recipientRand : Int)
    (hRecipient : ticket.Recipient = bv.addr)
    (hSender : ticket.Sender ≠ zeroAddress)
    (hPreimage : crypto.Keccak256Hash [big.Bytes recipientRand] = ticket.RecipientRandHash)
    (hUsed : bv.broker.IsUsedTicket ticket = (false, none)) :
    bv.IsValidTicket ticketHash ticket sig recipientRand =
      if bv.sigVerifier.Verify ticket.Sender sig (ticketHash ticket).val then
        ⟨false, some InvalidSignature,
          [Call.IsUsedTicket ticket, Call.Verify ticket.Sender sig (ticketHash ticket).val]⟩
      else
        ⟨true, none,
          [Call.IsUsedTicket ticket, Call.Verify ticket.Sender sig (ticketHash ticket).val]⟩ := by
  simp [BrokerValidator.IsValidTicket, hRecipient, hSender, hPreimage, hUsed, InvalidSignature]

/-- What `IsValidTicket` returns when the recipient and sender checks pass and the hash of
`recipientRand.Bytes()` is not the commitment of the ticket. -/
theorem IsValidTicket_bad_preimage (ticketHash : Ticket → Hash) (bv : BrokerValidator)
    (ticket : Ticket) (sig : ByteSeq) (recipientRand : Int)
    (hRecipient : ticket.Recipient = bv.addr)
    (hSender : ticket.Sender ≠ zeroAddress)
    (hPreimage : crypto.Keccak256Hash [big.Bytes recipientRand] ≠ ticket.RecipientRandHash) :
    bv.IsValidTicket ticketHash ticket sig recipientRand =
      ⟨false, some InvalidPreimage, []⟩ := by
  simp [BrokerValidator.IsValidTicket, hRecipient, hSender, hPreimage, InvalidPreimage]

/-- The sample ticket is addressed to the stub validator. -/
theorem sampleTicket_recipient (r : Int) (used : Bool × Option ForeignError) (v : Bool) :
    (sampleTicket r).Recipient = (stubValidator used v).addr := rfl

/-- The sender of the sample ticket is not the zero address. -/
theorem sampleTicket_sender (r : Int) : (sampleTicket r).Sender ≠ zeroAddress := by
  show addrOfByte 2 ≠ zeroAddress
  decide

/-- C1 (code as it is): at a ticket that passes checks 1-4, `IsValidTicket` answers
(false, InvalidSignature) when the signature verifier accepts the signature and
(true, nil) when the verifier turns it down: the opposite of the claim. -/
theorem C1_verified_signature_is_rejected :
    (stubValidator (false, none) true).IsValidTicket stubTicketHash (sampleTicket 7) [1, 2, 3] 7
        = ⟨false, some InvalidSignature,
            [Call.IsUsedTicket (sampleTicket 7),
             Call.Verify (addrOfByte 2) [1, 2, 3] (stubTicketHash (sampleTicket 7)).val]⟩
    ∧ (stubValidator (false, none) false).IsValidTicket stubTicketHash (sampleTicket 7) [1, 2, 3] 7
        = ⟨true, none,
            [Call.IsUsedTicket (sampleTicket 7),
             Call.Verify (addrOfByte 2) [1, 2, 3] (stubTicketHash (sampleTicket 7)).val]⟩ := by
  constructor
  · rw [IsValidTicket_of_checks _ _ _ _ _ (sampleTicket_recipient _ _ _) (sampleTicket_sender _)
      rfl rfl]
    rfl
  · rw [IsValidTicket_of_checks _ _ _ _ _ (sampleTicket_recipient _ _ _) (sampleTicket_sender _)
      rfl rfl]
    rfl

/-- C3: when checks 1-3 pass and the Broker reports the ticket as used, without failure,
`IsValidTicket` returns (false, TicketAlreadyUsed) for every signature verifier, and the
only call made is the one to `Broker.IsUsedTicket`. -/
theorem C3_replay_protection (ticketHash : Ticket → Hash) (bv : BrokerValidator)
    (ticket : Ticket) (sig : ByteSeq) (recipientRand : Int)
    (hRecipient : ticket.Recipient = bv.addr)
    (hSender : ticket.Sender ≠ zeroAddress)
    (hPreimage : crypto.Keccak256Hash [big.Bytes recipientRand] = ticket.RecipientRandHash)
    (hUsed : bv.broker.IsUsedTicket ticket = (true, none)) :
    bv.IsValidTicket ticketHash ticket sig recipientRand =
      ⟨false, some TicketAlreadyUsed, [Call.IsUsedTicket ticket]⟩ := by
  simp [BrokerValidator.IsValidTicket, hRecipient, hSender, hPreimage, hUsed, TicketAlreadyUsed]

/-- C3 at a used ticket whose signature the verifier would accept. -/
theorem C3_replay_protection_witness :
    (sampleTicket 7).Recipient = (stubValidator (true, none) true).addr
    ∧ (sampleTicket 7).Sender ≠ zeroAddress
    ∧ crypto.Keccak256Hash [big.Bytes 7] = (sampleTicket 7).RecipientRandHash
    ∧ (stubValidator (true, none) true).broker.IsUsedTicket (sampleTicket 7) = (true, none)
    ∧ (stubValidator (true, none) true).IsValidTicket stubTicketHash (sampleTicket 7) [1, 2, 3] 7
        = ⟨false, some TicketAlreadyUsed, [Call.IsUsedTicket (sampleTicket 7)]⟩ :=
  ⟨rfl, by decide, rfl, rfl,
    C3_replay_protection stubTicketHash (stubValidator (true, none) true) (sampleTicket 7)
      [1, 2, 3] 7 rfl (by decide) rfl rfl⟩

/-- The preimage branch of `IsValidTicket`, stated with the hash that the code computes,
`Keccak256Hash(recipientRand.Bytes())`: for a ticket addressed to the validator with a
non-zero sender, a mismatch with `ticket.RecipientRandHash` gives (false, InvalidPreimage)
with no call to a collaborator, and a match sends the validation on to the Broker query. -/
theorem preimage_branch_on_unpadded_hash (ticketHash : Ticket → Hash) (bv : BrokerValidator)
    (ticket : Ticket) (sig : ByteSeq) (recipientRand : Int)
    (hRecipient : ticket.Recipient = bv.addr)
    (hSender : ticket.Sender ≠ zeroAddress) :
    (crypto.Keccak256Hash [big.Bytes recipientRand] ≠ ticket.RecipientRandHash →
      bv.IsValidTicket ticketHash ticket sig recipientRand =
        ⟨false, some InvalidPreimage, []⟩)
    ∧ (ticket.RecipientRandHash = crypto.Keccak256Hash [big.Bytes recipientRand] →
      (bv.IsValidTicket ticketHash ticket sig recipientRand).err ≠ some InvalidPreimage
      ∧ (bv.IsValidTicket ticketHash ticket sig recipientRand).calls.head?
          = some (Call.IsUsedTicket ticket)) := by
  constructor
  · intro hPreimage
    exact IsValidTicket_bad_preimage ticketHash bv ticket sig recipientRand hRecipient hSender
      hPreimage
  · intro hPreimage
    rcases hBroker : bv.broker.IsUsedTicket ticket with ⟨used, _ | e⟩
    · by_cases hv : bv.sigVerifier.Verify ticket.Sender sig (ticketHash ticket).val <;>
        cases used <;>
        simp [BrokerValidator.IsValidTicket, hRecipient, hSender, hPreimage, hBroker, hv,
          InvalidPreimage]
    · simp [BrokerValidator.IsValidTicket, hRecipient, hSender, hPreimage, hBroker,
        InvalidPreimage]

/-- The preimage branch at two tickets: one that commits to the all-zero hash, opened with
7, and the sample ticket that commits to the unpadded hash of 7, opened with 7. -/
theorem preimage_branch_on_unpadded_hash_example :
    (sampleTicket 7).Recipient = (stubValidator (true, none) true).addr
    ∧ (sampleTicket 7).Sender ≠ zeroAddress
    ∧ (stubValidator (true, none) true).IsValidTicket stubTicketHash
        ⟨addrOfByte 1, addrOfByte 2, hashOfByte 0, some 5⟩ [1, 2, 3] 7
        = ⟨false, some InvalidPreimage, []⟩
    ∧ ((stubValidator (true, none) true).IsValidTicket stubTicketHash
        (sampleTicket 7) [1, 2, 3] 7).err ≠ some InvalidPreimage :=
  ⟨rfl, by decide,
    (preimage_branch_on_unpadded_hash stubTicketHash (stubValidator (true, none) true)
      ⟨addrOfByte 1, addrOfByte 2, hashOfByte 0, some 5⟩ [1, 2, 3] 7 rfl (by decide)).1
      (by decide!),
    ((preimage_branch_on_unpadded_hash stubTicketHash (stubValidator (true, none) true)
      (sampleTicket 7) [1, 2, 3] 7 rfl (by decide)).2 rfl).1⟩

/-- C5: when recovery succeeds and the recovered address is the claimed one, `Verify`
returns (true, nil) and makes no call to the Broker, whatever Broker it holds. -/
theorem C5_direct_signer (ec : Secp256k1) (bsv : BrokerSigVerifier)
    (addr : Address) (sig msg : ByteSeq) (pubkey : PublicKey)
    (hRecover : ec.SigToPub (personalHash msg) sig = .ok pubkey)
    (hAddr : ec.PubkeyToAddress pubkey = addr) :
    bsv.Verify ec addr sig msg = ⟨true, none, []⟩ := by
  simp [BrokerSigVerifier.Verify, hRecover, hAddr]

/-- C5 with a Broker that would fail every query. -/
theorem C5_direct_signer_witness :
    (stubSecp256k1 (.ok ⟨3, 4⟩) (addrOfByte 2)).SigToPub (personalHash [9]) [1, 2, 3]
        = .ok ⟨3, 4⟩
    ∧ (stubSecp256k1 (.ok ⟨3, 4⟩) (addrOfByte 2)).PubkeyToAddress ⟨3, 4⟩ = addrOfByte 2
    ∧ BrokerSigVerifier.Verify (stubSecp256k1 (.ok ⟨3, 4⟩) (addrOfByte 2))
        ⟨stubBroker (false, some ⟨"broker down"⟩) (false, none)⟩ (addrOfByte 2) [1, 2, 3] [9]
        = ⟨true, none, []⟩ :=
  ⟨rfl, rfl,
    C5_direct_signer (stubSecp256k1 (.ok ⟨3, 4⟩) (addrOfByte 2))
      ⟨stubBroker (false, some ⟨"broker down"⟩) (false, none)⟩ (addrOfByte 2) [1, 2, 3] [9]
      ⟨3, 4⟩ rfl rfl⟩

/-- C6: when recovery succeeds with an address other than the claimed one and the Broker
answers `IsApprovedSigner(claimed, recovered)` without failure, `Verify` returns the
Broker's boolean with no error, and its only call is that one query, the claimed address
first and the recovered address second. -/
theorem C6_delegate_signer (ec : Secp256k1) (bsv : BrokerSigVerifier)
    (addr : Address) (sig msg : ByteSeq) (pubkey : PublicKey) (approved : Bool)
    (hRecover : ec.SigToPub (personalHash msg) sig = .ok pubkey)
    (hAddr : ec.PubkeyToAddress pubkey ≠ addr)
    (hBroker : bsv.broker.IsApprovedSigner addr (ec.PubkeyToAddress pubkey) = (approved, none)) :
    bsv.Verify ec addr sig msg =
      ⟨approved, none, [Call.IsApprovedSigner addr (ec.PubkeyToAddress pubkey)]⟩ := by
  have hne : ¬ addr = ec.PubkeyToAddress pubkey := fun h => hAddr h.symm
  simp [BrokerSigVerifier.Verify, hRecover, hne, hBroker]

/-- C6 with a Broker that approves exactly the pair (claimed `02…02`, recovered `03…03`):
the order of the arguments matters. -/
theorem C6_delegate_signer_witness :
    (stubSecp256k1 (.ok ⟨3, 4⟩) (addrOfByte 3)).SigToPub (personalHash [9]) [1, 2, 3]
        = .ok ⟨3, 4⟩
    ∧ (stubSecp256k1 (.ok ⟨3, 4⟩) (addrOfByte 3)).PubkeyToAddress ⟨3, 4⟩ ≠ addrOfByte 2
    ∧ BrokerSigVerifier.Verify (stubSecp256k1 (.ok ⟨3, 4⟩) (addrOfByte 3))
        ⟨⟨fun owner candidate =>
            (decide (owner = addrOfByte 2 ∧ candidate = addrOfByte 3), none),
          fun _ => (false, none)⟩⟩ (addrOfByte 2) [1, 2, 3] [9]
        = ⟨true, none, [Call.IsApprovedSigner (addrOfByte 2) (addrOfByte 3)]⟩ :=
  ⟨rfl, by decide,
    C6_delegate_signer (stubSecp256k1 (.ok ⟨3, 4⟩) (addrOfByte 3))
      ⟨⟨fun owner candidate =>
          (decide (owner = addrOfByte 2 ∧ candidate = addrOfByte 3), none),
        fun _ => (false, none)⟩⟩ (addrOfByte 2) [1, 2, 3] [9] ⟨3, 4⟩ true rfl (by decide)
      (by decide)⟩

/-- C7: a ticket whose recipient is not the validator's address gets
(false, WrongRecipient) with no call to the Broker or to the signature verifier, whatever
its sender and commitment, the signature, `recipientRand` and the collaborators are. -/
theorem C7_wrong_recipient (ticketHash : Ticket → Hash) (bv : BrokerValidator)
    (ticket : Ticket) (sig : ByteSeq) (recipientRand : Int)
    (hRecipient : ticket.Recipient ≠ bv.addr) :
    bv.IsValidTicket ticketHash ticket sig recipientRand =
      ⟨false, some WrongRecipient, []⟩ := by
  simp [BrokerValidator.IsValidTicket, hRecipient, WrongRecipient]

/-- C7 at a ticket that also has the zero sender, a wrong preimage and a Broker that
reports it used. -/
theorem C7_wrong_recipient_witness :
    (⟨addrOfByte 9, zeroAddress, hashOfByte 0, some 5⟩ : Ticket).Recipient
        ≠ (stubValidator (true, none) true).addr
    ∧ (stubValidator (true, none) true).IsValidTicket stubTicketHash
        ⟨addrOfByte 9, zeroAddress, hashOfByte 0, some 5⟩ [1, 2, 3] 7
        = ⟨false, some WrongRecipient, []⟩ :=
  ⟨by decide,
    C7_wrong_recipient stubTicketHash (stubValidator (true, none) true)
      ⟨addrOfByte 9, zeroAddress, hashOfByte 0, some 5⟩ [1, 2, 3] 7 (by decide)⟩

/-- C8: a ticket addressed to the validator whose sender is the all-zero address gets
(false, InvalidSender) with no call to the Broker or to the signature verifier, whatever
its commitment, the signature, `recipientRand` and the collaborators are. -/
theorem C8_zero_sender (ticketHash : Ticket → Hash) (bv : BrokerValidator)
    (ticket : Ticket) (sig : ByteSeq) (recipientRand : Int)
    (hRecipient : ticket.Recipient = bv.addr)
    (hSender : ticket.Sender = zeroAddress) :
    bv.IsValidTicket ticketHash ticket sig recipientRand =
      ⟨false, some InvalidSender, []⟩ := by
  simp [BrokerValidator.IsValidTicket, hRecipient, hSender, InvalidSender]

/-- C8 at a ticket that also has a wrong preimage and a Broker that reports it used. -/
theorem C8_zero_sender_witness :
    (⟨addrOfByte 1, zeroAddress, hashOfByte 0, some 5⟩ : Ticket).Recipient
        = (stubValidator (true, none) true).addr
    ∧ (⟨addrOfByte 1, zeroAddress, hashOfByte 0, some 5⟩ : Ticket).Sender = zeroAddress
    ∧ (stubValidator (true, none) true).IsValidTicket stubTicketHash
        ⟨addrOfByte 1, zeroAddress, hashOfByte 0, some 5⟩ [1, 2, 3] 7
        = ⟨false, some InvalidSender, []⟩ :=
  ⟨rfl, rfl,
    C8_zero_sender stubTicketHash (stubValidator (true, none) true)
      ⟨addrOfByte 1, zeroAddress, hashOfByte 0, some 5⟩ [1, 2, 3] 7 rfl rfl⟩

/-- The digit loop of `big.Bytes` computes the base-256 digits, most significant first,
as soon as the fuel is at least the number. -/
theorem bytesCore_eq (fuel n : Nat) (acc : ByteSeq) (h : n ≤ fuel) :
    big.bytesCore fuel n acc = bigEndian n ++ acc := by
  induction fuel generalizing n acc with
  | zero =>
    have hn : n = 0 := by omega
    subst hn
    simp [big.bytesCore, bigEndian]
  | succ fuel ih =>
    by_cases hn : n = 0
    · subst hn
      simp [big.bytesCore, bigEndian]
    · have hpos : 0 < n := Nat.pos_of_ne_zero hn
      have hdiv : n / 256 ≤ fuel := by omega
      simp only [big.bytesCore, hn, if_false]
      rw [ih (n / 256) _ hdiv]
      simp [bigEndian, Nat.digits_def' (by norm_num : 1 < 256) hpos]

/-- The method `Bytes` returns the big-endian encoding of the absolute value. -/
theorem Bytes_eq_bigEndian (x : Int) : big.Bytes x = bigEndian x.natAbs := by
  simp [big.Bytes, bytesCore_eq _ _ _ (le_refl _)]

/-- The function `LeftPadBytes` with 32 is the padding of the spec. -/
theorem LeftPadBytes_eq_leftPad32 (bs : ByteSeq) : LeftPadBytes bs bytes32Size = leftPad32 bs := by
  unfold LeftPadBytes leftPad32 bytes32Size
  split
  · next h => simp [Nat.sub_eq_zero_of_le h]
  · rfl

/-- The loop of `SetBytes`, started from `acc`. -/
theorem foldl_setBytes (bs : ByteSeq) (acc : Nat) :
    bs.foldl (fun a b => a * 256 + b.toNat) acc = acc * 256 ^ bs.length + unsignedValue bs := by
  induction bs generalizing acc with
  | nil => simp [unsignedValue]
  | cons b bs ih =>
    simp only [List.foldl_cons, ih, unsignedValue, List.map_cons, List.reverse_cons,
      Nat.ofDigits_append, List.length_reverse, List.length_map, List.length_cons,
      Nat.ofDigits_singleton]
    ring

/-- The method `SetBytes` reads the bytes as an unsigned big-endian integer. -/
theorem SetBytes_eq_unsignedValue (bs : ByteSeq) : big.SetBytes bs = (unsignedValue bs : Int) := by
  simp [big.SetBytes, foldl_setBytes]

/-- The test `x.Cmp(y) < 0` is the test `x < y`. -/
theorem Cmp_neg_iff (x y : Int) : big.Cmp x y < 0 ↔ x < y := by
  unfold big.Cmp
  split
  · simp [*]
  · split <;> simp [*]

/-- The encoding of a number below `2^256` has at most 32 bytes. -/
theorem length_bigEndian_le (n : Nat) (h : n < 2 ^ 256) : (bigEndian n).length ≤ 32 := by
  simp only [bigEndian, List.length_reverse, List.length_map]
  by_cases hn : n = 0
  · simp [hn]
  · have h1 := Nat.base_pow_length_digits_le 256 n (by norm_num) hn
    have h2 : 256 ^ (Nat.digits 256 n).length < 256 ^ 33 := by
      have : (256 : Nat) ^ 33 = 256 * 2 ^ 256 := by norm_num
      omega
    have h3 := (Nat.pow_lt_pow_iff_right (by norm_num : 1 < 256)).mp h2
    omega

/-- The padded encoding of a number below `2^256` has exactly 32 bytes. -/
theorem length_leftPad32_bigEndian (n : Nat) (h : n < 2 ^ 256) :
    (leftPad32 (bigEndian n)).length = 32 := by
  have := length_bigEndian_le n h
  simp only [leftPad32, List.length_append, List.length_replicate]
  omega

/-- C2: for a ticket with a non-nil `WinProb` and `recipientRand` in `[0, 2^256)`,
`IsWinningTicket` returns a boolean, and it is true exactly when the Keccak-256 digest of
the signature followed by the big-endian encoding of `recipientRand` padded to 32 bytes,
read as an unsigned big-endian integer, is strictly below `WinProb`. -/
theorem C2_winning_iff_digest_lt_winProb (bv : BrokerValidator) (ticket : Ticket)
    (sig : ByteSeq) (recipientRand winProb : Int)
    (hWinProb : ticket.WinProb = some winProb)
    (hNonneg : 0 ≤ recipientRand) (hBound : recipientRand < 2 ^ 256) :
    bv.IsWinningTicket ticket sig recipientRand =
        some (decide ((unsignedValue
          (crypto.sum256 (sig ++ leftPad32 (bigEndian recipientRand.toNat))) : Int) < winProb))
    ∧ (leftPad32 (bigEndian recipientRand.toNat)).length = 32 := by
  have hAbs : recipientRand.natAbs = recipientRand.toNat := by omega
  have hNat : recipientRand.toNat < 2 ^ 256 := by
    have : ((recipientRand.toNat : Nat) : Int) < ((2 ^ 256 : Nat) : Int) := by
      rw [Int.toNat_of_nonneg hNonneg]
      exact_mod_cast hBound
    exact_mod_cast this
  refine ⟨?_, length_leftPad32_bigEndian _ hNat⟩
  simp only [BrokerValidator.IsWinningTicket, hWinProb, LeftPadBytes_eq_leftPad32,
    Bytes_eq_bigEndian, hAbs, SetBytes_eq_unsignedValue, Cmp_neg_iff, crypto.Keccak256,
    List.foldr_cons, List.foldr_nil, List.append_nil]

/-- C2 at the sample ticket, whose `WinProb` is `2^255`, with `recipientRand = 7`. -/
theorem C2_winning_iff_digest_lt_winProb_witness :
    (sampleTicket 7).WinProb = some (2 ^ 255)
    ∧ (0 : Int) ≤ 7 ∧ (7 : Int) < 2 ^ 256
    ∧ (stubValidator (false, none) true).IsWinningTicket (sampleTicket 7) [1, 2, 3] 7 =
        some (decide ((unsignedValue
          (crypto.sum256 ([1, 2, 3] ++ leftPad32 (bigEndian (7 : Int).toNat))) : Int)
            < 2 ^ 255)) :=
  ⟨rfl, by decide, by norm_num,
    (C2_winning_iff_digest_lt_winProb (stubValidator (false, none) true) (sampleTicket 7)
      [1, 2, 3] 7 (2 ^ 255) rfl (by decide) (by norm_num)).1⟩

/-- The padded encoding of 0 is thirty-two zero bytes, while `Bytes` of 0 is empty. -/
theorem encodings_of_zero :
    leftPad32 (bigEndian 0) = List.replicate 32 0 ∧ big.Bytes 0 = [] := by
  constructor
  · simp [leftPad32, bigEndian]
  · rfl

/-- Known answer of the embedded hash function: Keccak-256 of the empty string is
`c5d2460186f7233c927e7db2dcc703c0e500b653ca82273b7bfad8045d85a470`. -/
theorem Keccak256_empty :
    crypto.Keccak256 [[]] =
      [0xc5, 0xd2, 0x46, 0x01, 0x86, 0xf7, 0x23, 0x3c, 0x92, 0x7e, 0x7d, 0xb2, 0xdc, 0xc7,
       0x03, 0xc0, 0xe5, 0x00, 0xb6, 0x53, 0xca, 0x82, 0x27, 0x3b, 0x7b, 0xfa, 0xd8, 0x04,
       0x5d, 0x85, 0xa4, 0x70] := by
  decide!

/-- Known answer of the embedded hash function: Keccak-256 of thirty-two zero bytes is
`290decd9548b62a8d60345a988386fc84ba6bc95484008f6362f93160ef3e563`. -/
theorem Keccak256_zeros32 :
    crypto.Keccak256 [List.replicate 32 0] =
      [0x29, 0x0d, 0xec, 0xd9, 0x54, 0x8b, 0x62, 0xa8, 0xd6, 0x03, 0x45, 0xa9, 0x88, 0x38,
       0x6f, 0xc8, 0x4b, 0xa6, 0xbc, 0x95, 0x48, 0x40, 0x08, 0xf6, 0x36, 0x2f, 0x93, 0x16,
       0x0e, 0xf3, 0xe5, 0x63] := by
  decide!

/-- Keccak-256 tells the empty string from thirty-two zero bytes. -/
theorem keccak_empty_ne_keccak_zeros :
    crypto.Keccak256Hash [[]] ≠ crypto.Keccak256Hash [List.replicate 32 0] := by
  intro h
  have hval : crypto.Keccak256 [[]] = crypto.Keccak256 [List.replicate 32 0] :=
    congrArg Subtype.val h
  rw [Keccak256_empty, Keccak256_zeros32] at hval
  exact absurd hval (by decide)

/-- The encoding of a number from `2^248` on has at least 32 bytes. -/
theorem length_bigEndian_ge (n : Nat) (h : 2 ^ 248 ≤ n) : 32 ≤ (bigEndian n).length := by
  simp only [bigEndian, List.length_reverse, List.length_map]
  by_contra hlen
  have h1 : n < 256 ^ (Nat.digits 256 n).length :=
    Nat.lt_base_pow_length_digits (by norm_num)
  have h2 : 256 ^ (Nat.digits 256 n).length ≤ 256 ^ 31 :=
    Nat.pow_le_pow_right (by norm_num) (by omega)
  have h3 : (256 : Nat) ^ 31 = 2 ^ 248 := by norm_num
  omega

/-- Where the two encodings agree: for `recipientRand` in `[2^248, 2^256)` the slice
`recipientRand.Bytes()` that the commitment check hashes is already the 32-byte encoding. -/
theorem Bytes_eq_padded_of_full_width (recipientRand : Int)
    (hLow : 2 ^ 248 ≤ recipientRand) :
    big.Bytes recipientRand = leftPad32 (bigEndian recipientRand.toNat) := by
  have hAbs : recipientRand.natAbs = recipientRand.toNat := by omega
  have hNat : 2 ^ 248 ≤ recipientRand.toNat := by
    have : ((2 ^ 248 : Nat) : Int) ≤ ((recipientRand.toNat : Nat) : Int) := by
      rw [Int.toNat_of_nonneg (by omega)]
      exact_mod_cast hLow
    exact_mod_cast this
  have hlen := length_bigEndian_ge _ hNat
  rw [Bytes_eq_bigEndian, hAbs, leftPad32, Nat.sub_eq_zero_of_le hlen]
  rfl

/-- C9 (code as it is): the commitment check hashes `recipientRand.Bytes()` without
padding.  With `recipientRand = 0`, a ticket that commits to the hash of the 32-byte
encoding is turned down with InvalidPreimage, and a ticket that commits to the hash of the
empty string passes the check although the hash of the 32-byte encoding differs from its
commitment. -/
theorem C9_unpadded_commitment_check :
    (stubValidator (false, none) false).IsValidTicket stubTicketHash
        ⟨addrOfByte 1, addrOfByte 2, crypto.Keccak256Hash [leftPad32 (bigEndian 0)],
          some (2 ^ 255)⟩ [1, 2, 3] 0
      = ⟨false, some InvalidPreimage, []⟩
    ∧ (stubValidator (false, none) false).IsValidTicket stubTicketHash
        (sampleTicket 0) [1, 2, 3] 0
      = ⟨true, none, [Call.IsUsedTicket (sampleTicket 0),
          Call.Verify (addrOfByte 2) [1, 2, 3] (stubTicketHash (sampleTicket 0)).val]⟩
    ∧ crypto.Keccak256Hash [leftPad32 (bigEndian 0)] ≠ (sampleTicket 0).RecipientRandHash := by
  have hne : crypto.Keccak256Hash [big.Bytes 0]
      ≠ crypto.Keccak256Hash [leftPad32 (bigEndian 0)] := by
    rw [encodings_of_zero.1, encodings_of_zero.2]
    exact keccak_empty_ne_keccak_zeros
  refine ⟨?_, ?_, fun h => hne h.symm⟩
  · exact IsValidTicket_bad_preimage _ _ _ _ _ rfl (by decide) hne
  · rw [IsValidTicket_of_checks _ _ _ _ _ (sampleTicket_recipient _ _ _) (sampleTicket_sender _)
      rfl rfl]
    rfl

/-- The two encodings of 1: `Bytes` gives the single byte 1, the padded encoding is 31 zero
bytes followed by the byte 1. -/
theorem encodings_of_one :
    leftPad32 (bigEndian 1) = List.replicate 31 0 ++ [1] ∧ big.Bytes 1 = [1] := by
  constructor
  · have h : Nat.digits 256 1 = [1] := by norm_num
    simp only [leftPad32, bigEndian, h]
    rfl
  · rfl

/-- Keccak-256 tells the single byte 1 from its encoding padded to 32 bytes. -/
theorem keccak_one_ne_keccak_padded_one :
    crypto.Keccak256Hash [[1]] ≠ crypto.Keccak256Hash [List.replicate 31 0 ++ [1]] := by
  decide!

/-- C4 (code as it is): with the hash of `recipientRand` taken as the spec defines it, over
the encoding padded to 32 bytes, both halves of the claim fail at `recipientRand = 1`.  A
ticket built with `RecipientRandHash = hash(1)` and opened with 1 is turned down with
InvalidPreimage; and a ticket whose commitment differs from `hash(1)`, being the hash of
the single byte 1, is not turned down: the Broker and the signature verifier are queried
and the ticket is accepted. -/
theorem C4_commitment_to_spec_hash_is_rejected :
    (stubValidator (false, none) false).IsValidTicket stubTicketHash
        ⟨addrOfByte 1, addrOfByte 2, commitmentHash 1, some (2 ^ 255)⟩ [1, 2, 3] 1
      = ⟨false, some InvalidPreimage, []⟩
    ∧ commitmentHash 1 ≠ (sampleTicket 1).RecipientRandHash
    ∧ (stubValidator (false, none) false).IsValidTicket stubTicketHash
        (sampleTicket 1) [1, 2, 3] 1
      = ⟨true, none, [Call.IsUsedTicket (sampleTicket 1),
          Call.Verify (addrOfByte 2) [1, 2, 3] (stubTicketHash (sampleTicket 1)).val]⟩ := by
  have hne : crypto.Keccak256Hash [big.Bytes 1] ≠ commitmentHash 1 := by
    rw [commitmentHash, encodings_of_one.1, encodings_of_one.2]
    exact keccak_one_ne_keccak_padded_one
  refine ⟨?_, fun h => hne h.symm, ?_⟩
  · exact IsValidTicket_bad_preimage _ _ _ _ _ rfl (by decide) hne
  · rw [IsValidTicket_of_checks _ _ _ _ _ (sampleTicket_recipient _ _ _) (sampleTicket_sender _)
      rfl rfl]
    rfl

/-- The verb `%d` applied to 32 writes the two characters `3` and `2`. -/
theorem formatDecimal_32 : formatDecimal 32 = [0x33, 0x32] := by decide

/-- C10 (claim as stated fails): for the three-byte message `abc` the payload that
`Verify` hashes carries the length field `32`, not the decimal length `3` of the message. -/
theorem C10_length_field_is_not_message_length :
    personalMsg [0x61, 0x62, 0x63] = signedMessageHeader ++ [0x33, 0x32] ++ [0x61, 0x62, 0x63]
    ∧ personalPayload [0x61, 0x62, 0x63] = signedMessageHeader ++ [0x33] ++ [0x61, 0x62, 0x63]
    ∧ personalMsg [0x61, 0x62, 0x63] ≠ personalPayload [0x61, 0x62, 0x63] := by
  decide

/-- C10 (amended): for every message, the payload that `Verify` hashes is the
personal-message prefix, followed by the two ASCII characters `32`, followed by the raw
bytes of the message; for a message of 32 bytes this is the prefix, the decimal length of
the message and the message. -/
theorem C10_payload_has_constant_length_field (msg : ByteSeq) :
    personalHash msg = crypto.Keccak256 [signedMessageHeader ++ [0x33, 0x32] ++ msg]
    ∧ (msg.length = 32 → personalMsg msg = personalPayload msg) := by
  constructor
  · simp [personalHash, personalMsg, formatDecimal_32]
  · intro h
    simp [personalMsg, personalPayload, h]

/-- C10 (amended) at the message of thirty-two zero bytes. -/
theorem C10_payload_has_constant_length_field_witness :
    (List.replicate 32 (0 : UInt8)).length = 32
    ∧ personalMsg (List.replicate 32 0) = personalPayload (List.replicate 32 0) :=
  ⟨by simp, (C10_payload_has_constant_length_field (List.replicate 32 0)).2 (by simp)⟩

/-- The method `IsWinningTicket` in one expression: the digest of the signature followed by
`recipientRandBytes`, compared with `WinProb`. -/
theorem IsWinningTicket_eq (bv : BrokerValidator) (ticket : Ticket) (sig : ByteSeq)
    (recipientRand : Int) :
    bv.IsWinningTicket ticket sig recipientRand =
      ticket.WinProb.map fun winProb =>
        decide ((unsignedValue (crypto.sum256 (sig ++ recipientRandBytes recipientRand)) : Int)
          < winProb) := by
  cases h : ticket.WinProb <;>
    simp [BrokerValidator.IsWinningTicket, h, recipientRandBytes, SetBytes_eq_unsignedValue,
      Cmp_neg_iff, crypto.Keccak256]

/-- A byte string of `k` bytes denotes a number below `256 ^ k`. -/
theorem unsignedValue_lt (bs : ByteSeq) : unsignedValue bs < 256 ^ bs.length := by
  have h := Nat.ofDigits_lt_base_pow_length (b := 256) (l := (bs.map UInt8.toNat).reverse)
    (by norm_num) (by
      intro x hx
      simp only [List.mem_reverse, List.mem_map] at hx
      obtain ⟨b, _, rfl⟩ := hx
      exact b.val.isLt)
  simpa using h

/-- The digest is a number below `2 ^ 256`. -/
theorem digest_lt (data : ByteSeq) : unsignedValue (crypto.sum256 data) < 2 ^ 256 := by
  have h := unsignedValue_lt (crypto.sum256 data)
  have hlen : (crypto.sum256 data).length = 32 := by simp [crypto.sum256, crypto.squeeze]
  rw [hlen] at h
  have : (256 : Nat) ^ 32 = 2 ^ 256 := by norm_num
  omega

/-- C11: a ticket with `WinProb = 0` never wins: `IsWinningTicket` returns false for every
signature and every `recipientRand`. -/
theorem C11_zero_winProb_never_wins (bv : BrokerValidator) (ticket : Ticket) (sig : ByteSeq)
    (recipientRand : Int) (hWinProb : ticket.WinProb = some 0) :
    bv.IsWinningTicket ticket sig recipientRand = some false := by
  rw [IsWinningTicket_eq, hWinProb]
  simp only [Option.map_some', Option.some.injEq, decide_eq_false_iff_not, not_lt]
  exact Int.ofNat_nonneg _

/-- C11 at a ticket with `WinProb = 0`. -/
theorem C11_zero_winProb_never_wins_witness :
    (⟨addrOfByte 1, addrOfByte 2, hashOfByte 0, some 0⟩ : Ticket).WinProb = some 0
    ∧ (stubValidator (false, none) true).IsWinningTicket
        ⟨addrOfByte 1, addrOfByte 2, hashOfByte 0, some 0⟩ [1, 2, 3] 7 = some false :=
  ⟨rfl, C11_zero_winProb_never_wins (stubValidator (false, none) true)
    ⟨addrOfByte 1, addrOfByte 2, hashOfByte 0, some 0⟩ [1, 2, 3] 7 rfl⟩

/-- C12: for a ticket with `WinProb = 2^256 - 1`, the digest has 32 bytes and
`IsWinningTicket` returns true exactly when the digest of the signature followed by the
padded `recipientRand`, read as an unsigned integer, is not `2^256 - 1`. -/
theorem C12_near_certain_winProb (bv : BrokerValidator) (ticket : Ticket) (sig : ByteSeq)
    (recipientRand : Int) (hWinProb : ticket.WinProb = some (2 ^ 256 - 1)) :
    (crypto.Keccak256 [sig, recipientRandBytes recipientRand]).length = 32
    ∧ bv.IsWinningTicket ticket sig recipientRand =
        some (decide (unsignedValue (crypto.sum256 (sig ++ recipientRandBytes recipientRand))
          ≠ 2 ^ 256 - 1)) := by
  refine ⟨by simp [crypto.Keccak256, crypto.sum256, crypto.squeeze], ?_⟩
  rw [IsWinningTicket_eq, hWinProb]
  have h := digest_lt (sig ++ recipientRandBytes recipientRand)
  simp only [Option.map_some', Option.some.injEq, decide_eq_decide]
  constructor
  · intro hlt heq
    rw [heq] at hlt
    have h2 : (((2 ^ 256 - 1 : Nat) : Int)) = 2 ^ 256 - 1 := by norm_num
    omega
  · intro hne
    have h3 : unsignedValue (crypto.sum256 (sig ++ recipientRandBytes recipientRand))
        < 2 ^ 256 - 1 := by omega
    have h4 : ((unsignedValue (crypto.sum256 (sig ++ recipientRandBytes recipientRand)) : Nat)
        : Int) < ((2 ^ 256 - 1 : Nat) : Int) := by exact_mod_cast h3
    have h2 : (((2 ^ 256 - 1 : Nat) : Int)) = 2 ^ 256 - 1 := by norm_num
    omega

/-- C12 at a ticket with `WinProb = 2^256 - 1`. -/
theorem C12_near_certain_winProb_witness :
    (⟨addrOfByte 1, addrOfByte 2, hashOfByte 0, some (2 ^ 256 - 1)⟩ : Ticket).WinProb
        = some (2 ^ 256 - 1)
    ∧ (stubValidator (false, none) true).IsWinningTicket
        ⟨addrOfByte 1, addrOfByte 2, hashOfByte 0, some (2 ^ 256 - 1)⟩ [1, 2, 3] 7 =
        some (decide (unsignedValue (crypto.sum256 ([1, 2, 3] ++ recipientRandBytes 7))
          ≠ 2 ^ 256 - 1)) :=
  ⟨rfl, (C12_near_certain_winProb (stubValidator (false, none) true)
    ⟨addrOfByte 1, addrOfByte 2, hashOfByte 0, some (2 ^ 256 - 1)⟩ [1, 2, 3] 7 rfl).2⟩

/-- C13: when checks 1-3 pass and `Broker.IsUsedTicket` returns an error, `IsValidTicket`
returns false with that same error, whatever boolean came with it, and the only call made
is the one to `Broker.IsUsedTicket`. -/
theorem C13_broker_failure_in_validation (ticketHash : Ticket → Hash) (bv : BrokerValidator)
    (ticket : Ticket) (sig : ByteSeq) (recipientRand : Int) (used : Bool) (e : ForeignError)
    (hRecipient : ticket.Recipient = bv.addr)
    (hSender : ticket.Sender ≠ zeroAddress)
    (hPreimage : crypto.Keccak256Hash [big.Bytes recipientRand] = ticket.RecipientRandHash)
    (hBroker : bv.broker.IsUsedTicket ticket = (used, some e)) :
    bv.IsValidTicket ticketHash ticket sig recipientRand =
      ⟨false, some (.foreign e), [Call.IsUsedTicket ticket]⟩ := by
  simp [BrokerValidator.IsValidTicket, hRecipient, hSender, hPreimage, hBroker]

/-- C13 with a Broker that answers (true, error) and with one that answers (false, error). -/
theorem C13_broker_failure_in_validation_witness :
    (stubValidator (true, some ⟨"broker down"⟩) false).broker.IsUsedTicket (sampleTicket 7)
        = (true, some ⟨"broker down"⟩)
    ∧ (stubValidator (true, some ⟨"broker down"⟩) false).IsValidTicket stubTicketHash
        (sampleTicket 7) [1, 2, 3] 7
        = ⟨false, some (.foreign ⟨"broker down"⟩), [Call.IsUsedTicket (sampleTicket 7)]⟩
    ∧ (stubValidator (false, some ⟨"broker down"⟩) false).IsValidTicket stubTicketHash
        (sampleTicket 7) [1, 2, 3] 7
        = ⟨false, some (.foreign ⟨"broker down"⟩), [Call.IsUsedTicket (sampleTicket 7)]⟩ :=
  ⟨rfl,
    C13_broker_failure_in_validation stubTicketHash
      (stubValidator (true, some ⟨"broker down"⟩) false) (sampleTicket 7) [1, 2, 3] 7 true
      ⟨"broker down"⟩ rfl (by decide) rfl rfl,
    C13_broker_failure_in_validation stubTicketHash
      (stubValidator (false, some ⟨"broker down"⟩) false) (sampleTicket 7) [1, 2, 3] 7 false
      ⟨"broker down"⟩ rfl (by decide) rfl rfl⟩

/-- C14: when public-key recovery fails with an error, `Verify` returns false with that
same error and makes no call to the Broker. -/
theorem C14_malformed_signature (ec : Secp256k1) (bsv : BrokerSigVerifier)
    (addr : Address) (sig msg : ByteSeq) (e : ForeignError)
    (hRecover : ec.SigToPub (personalHash msg) sig = .error e) :
    bsv.Verify ec addr sig msg = ⟨false, some (.foreign e), []⟩ := by
  simp [BrokerSigVerifier.Verify, hRecover]

/-- C14 with a recovery that fails and a Broker that would approve. -/
theorem C14_malformed_signature_witness :
    (stubSecp256k1 (.error ⟨"invalid signature recovery id"⟩) (addrOfByte 2)).SigToPub
        (personalHash [9]) [1, 2, 3] = .error ⟨"invalid signature recovery id"⟩
    ∧ BrokerSigVerifier.Verify
        (stubSecp256k1 (.error ⟨"invalid signature recovery id"⟩) (addrOfByte 2))
        ⟨stubBroker (true, none) (false, none)⟩ (addrOfByte 2) [1, 2, 3] [9]
        = ⟨false, some (.foreign ⟨"invalid signature recovery id"⟩), []⟩ :=
  ⟨rfl,
    C14_malformed_signature
      (stubSecp256k1 (.error ⟨"invalid signature recovery id"⟩) (addrOfByte 2))
      ⟨stubBroker (true, none) (false, none)⟩ (addrOfByte 2) [1, 2, 3] [9]
      ⟨"invalid signature recovery id"⟩ rfl⟩

/-- C15: when recovery succeeds with an address other than the claimed one and
`Broker.IsApprovedSigner` returns an error, `Verify` returns false with that same error,
whatever boolean came with it. -/
theorem C15_broker_failure_in_verification (ec : Secp256k1) (bsv : BrokerSigVerifier)
    (addr : Address) (sig msg : ByteSeq) (pubkey : PublicKey) (approved : Bool)
    (e : ForeignError)
    (hRecover : ec.SigToPub (personalHash msg) sig = .ok pubkey)
    (hAddr : ec.PubkeyToAddress pubkey ≠ addr)
    (hBroker : bsv.broker.IsApprovedSigner addr (ec.PubkeyToAddress pubkey)
      = (approved, some e)) :
    bsv.Verify ec addr sig msg =
      ⟨false, some (.foreign e), [Call.IsApprovedSigner addr (ec.PubkeyToAddress pubkey)]⟩ := by
  have hne : ¬ addr = ec.PubkeyToAddress pubkey := fun h => hAddr h.symm
  simp [BrokerSigVerifier.Verify, hRecover, hne, hBroker]

/-- C15 with a Broker that answers (true, error). -/
theorem C15_broker_failure_in_verification_witness :
    (stubSecp256k1 (.ok ⟨3, 4⟩) (addrOfByte 3)).SigToPub (personalHash [9]) [1, 2, 3]
        = .ok ⟨3, 4⟩
    ∧ (stubSecp256k1 (.ok ⟨3, 4⟩) (addrOfByte 3)).PubkeyToAddress ⟨3, 4⟩ ≠ addrOfByte 2
    ∧ BrokerSigVerifier.Verify (stubSecp256k1 (.ok ⟨3, 4⟩) (addrOfByte 3))
        ⟨stubBroker (true, some ⟨"broker down"⟩) (false, none)⟩ (addrOfByte 2) [1, 2, 3] [9]
        = ⟨false, some (.foreign ⟨"broker down"⟩),
            [Call.IsApprovedSigner (addrOfByte 2) (addrOfByte 3)]⟩ :=
  ⟨rfl, by decide,
    C15_broker_failure_in_verification (stubSecp256k1 (.ok ⟨3, 4⟩) (addrOfByte 3))
      ⟨stubBroker (true, some ⟨"broker down"⟩) (false, none)⟩ (addrOfByte 2) [1, 2, 3] [9]
      ⟨3, 4⟩ true ⟨"broker down"⟩ rfl (by decide) rfl⟩

/-- C17: two calls of `IsWinningTicket` that agree on the signature, on `recipientRand`
and on a non-nil `WinProb` return the same boolean, whatever the two validators (address,
Broker, signature verifier) and the other fields of the two tickets are; the result does
not depend on any collaborator and is never a failure. -/
theorem C17_isWinningTicket_deterministic (bv bv2 : BrokerValidator) (ticket ticket2 : Ticket)
    (sig : ByteSeq) (recipientRand winProb : Int)
    (hWinProb : ticket.WinProb = some winProb) (hWinProb2 : ticket2.WinProb = some winProb) :
    bv.IsWinningTicket ticket sig recipientRand = bv2.IsWinningTicket ticket2 sig recipientRand
    ∧ ∃ b : Bool, bv.IsWinningTicket ticket sig recipientRand = some b := by
  rw [IsWinningTicket_eq, IsWinningTicket_eq, hWinProb, hWinProb2]
  exact ⟨rfl, _, rfl⟩

/-- C17 at two validators with different addresses and collaborators and two tickets that
share only `WinProb`. -/
theorem C17_isWinningTicket_deterministic_witness :
    (sampleTicket 7).WinProb = some (2 ^ 255)
    ∧ (⟨addrOfByte 8, zeroAddress, hashOfByte 0, some (2 ^ 255)⟩ : Ticket).WinProb
        = some (2 ^ 255)
    ∧ (stubValidator (false, none) true).IsWinningTicket (sampleTicket 7) [1, 2, 3] 7
        = BrokerValidator.IsWinningTicket
            ⟨addrOfByte 5, stubBroker (true, some ⟨"broker down"⟩) (true, none),
              stubSigVerifier false⟩
            ⟨addrOfByte 8, zeroAddress, hashOfByte 0, some (2 ^ 255)⟩ [1, 2, 3] 7 :=
  ⟨rfl, rfl,
    (C17_isWinningTicket_deterministic (stubValidator (false, none) true)
      ⟨addrOfByte 5, stubBroker (true, some ⟨"broker down"⟩) (true, none),
        stubSigVerifier false⟩
      (sampleTicket 7) ⟨addrOfByte 8, zeroAddress, hashOfByte 0, some (2 ^ 255)⟩
      [1, 2, 3] 7 (2 ^ 255) rfl rfl).1⟩

/-- C18: `IsValidTicket` returns `valid = true` exactly when it returns a nil error, and
when it returns `valid = true` the recipient is the validator's address, the sender is not
the zero address, the hash of `recipientRand.Bytes()` is the commitment of the ticket and
the Broker answered (false, nil). -/
theorem C18_valid_iff_no_error (ticketHash : Ticket → Hash) (bv : BrokerValidator)
    (ticket : Ticket) (sig : ByteSeq) (recipientRand : Int) :
    ((bv.IsValidTicket ticketHash ticket sig recipientRand).ok = true
      ↔ (bv.IsValidTicket ticketHash ticket sig recipientRand).err = none)
    ∧ ((bv.IsValidTicket ticketHash ticket sig recipientRand).ok = true →
        ticket.Recipient = bv.addr
        ∧ ticket.Sender ≠ zeroAddress
        ∧ crypto.Keccak256Hash [big.Bytes recipientRand] = ticket.RecipientRandHash
        ∧ bv.broker.IsUsedTicket ticket = (false, none)) := by
  by_cases hRecipient : ticket.Recipient = bv.addr
  swap
  · simp [BrokerValidator.IsValidTicket, hRecipient]
  by_cases hSender : ticket.Sender = zeroAddress
  · simp [BrokerValidator.IsValidTicket, hRecipient, hSender]
  by_cases hPreimage : crypto.Keccak256Hash [big.Bytes recipientRand] = ticket.RecipientRandHash
  swap
  · simp [BrokerValidator.IsValidTicket, hRecipient, hSender, hPreimage]
  rcases hBroker : bv.broker.IsUsedTicket ticket with ⟨used, _ | e⟩
  · by_cases hv : bv.sigVerifier.Verify ticket.Sender sig (ticketHash ticket).val <;>
      cases used <;>
      simp [BrokerValidator.IsValidTicket, hRecipient, hSender, hPreimage, hBroker, hv]
  · simp [BrokerValidator.IsValidTicket, hRecipient, hSender, hPreimage, hBroker]

/-- C18 at a ticket that `IsValidTicket` accepts. -/
theorem C18_valid_iff_no_error_witness :
    ((stubValidator (false, none) false).IsValidTicket stubTicketHash
        (sampleTicket 7) [1, 2, 3] 7).ok = true
    ∧ ((stubValidator (false, none) false).IsValidTicket stubTicketHash
        (sampleTicket 7) [1, 2, 3] 7).err = none
    ∧ (stubValidator (false, none) false).broker.IsUsedTicket (sampleTicket 7)
        = (false, none) :=
  have hok : ((stubValidator (false, none) false).IsValidTicket stubTicketHash
      (sampleTicket 7) [1, 2, 3] 7).ok = true := by
    rw [IsValidTicket_of_checks _ _ _ _ _ (sampleTicket_recipient _ _ _)
      (sampleTicket_sender _) rfl rfl]
    rfl
  ⟨hok,
    (C18_valid_iff_no_error stubTicketHash (stubValidator (false, none) false)
      (sampleTicket 7) [1, 2, 3] 7).1.mp hok,
    ((C18_valid_iff_no_error stubTicketHash (stubValidator (false, none) false)
      (sampleTicket 7) [1, 2, 3] 7).2 hok).2.2.2⟩

/-- C19: with the same signature and `recipientRand`, a ticket that wins still wins when
its `WinProb` is raised. -/
theorem C19_monotone_in_winProb (bv : BrokerValidator) (t1 t2 : Ticket) (sig : ByteSeq)
    (recipientRand w1 w2 : Int)
    (h1 : t1.WinProb = some w1) (h2 : t2.WinProb = some w2) (hle : w1 ≤ w2)
    (hWin : bv.IsWinningTicket t1 sig recipientRand = some true) :
    bv.IsWinningTicket t2 sig recipientRand = some true := by
  rw [IsWinningTicket_eq, h1] at hWin
  rw [IsWinningTicket_eq, h2]
  simp only [Option.map_some', Option.some.injEq, decide_eq_true_eq] at hWin ⊢
  omega

/-- The sample ticket with signature `[1, 2, 3]` and `recipientRand = 7` is winning when
its `WinProb` is `2^256 - 1`. -/
theorem sample_wins :
    (stubValidator (false, none) true).IsWinningTicket
      ⟨addrOfByte 1, addrOfByte 2, hashOfByte 0, some (2 ^ 256 - 1)⟩ [1, 2, 3] 7 = some true := by
  decide!

/-- C19 at two tickets with `WinProb = 2^256 - 1` and `WinProb = 2^256`. -/
theorem C19_monotone_in_winProb_witness :
    (2 ^ 256 - 1 : Int) ≤ 2 ^ 256
    ∧ (stubValidator (false, none) true).IsWinningTicket
        ⟨addrOfByte 1, addrOfByte 2, hashOfByte 0, some (2 ^ 256 - 1)⟩ [1, 2, 3] 7 = some true
    ∧ (stubValidator (false, none) true).IsWinningTicket
        ⟨addrOfByte 1, addrOfByte 2, hashOfByte 0, some (2 ^ 256)⟩ [1, 2, 3] 7 = some true :=
  ⟨by norm_num, sample_wins,
    C19_monotone_in_winProb (stubValidator (false, none) true)
      ⟨addrOfByte 1, addrOfByte 2, hashOfByte 0, some (2 ^ 256 - 1)⟩
      ⟨addrOfByte 1, addrOfByte 2, hashOfByte 0, some (2 ^ 256)⟩ [1, 2, 3] 7
      (2 ^ 256 - 1) (2 ^ 256) rfl rfl (by norm_num) sample_wins⟩

/-- The encoding of a number from `2^256` on has more than 32 bytes. -/
theorem length_bigEndian_gt (n : Nat) (h : 2 ^ 256 ≤ n) : 32 < (bigEndian n).length := by
  simp only [bigEndian, List.length_reverse, List.length_map]
  by_contra hlen
  have h1 : n < 256 ^ (Nat.digits 256 n).length :=
    Nat.lt_base_pow_length_digits (by norm_num)
  have h2 : 256 ^ (Nat.digits 256 n).length ≤ 256 ^ 32 :=
    Nat.pow_le_pow_right (by norm_num) (by omega)
  have h3 : (256 : Nat) ^ 32 = 2 ^ 256 := by norm_num
  omega

/-- C16 (claim as stated fails): for `recipientRand = 2^256` the slice that
`IsWinningTicket` hashes after the signature is the unpadded encoding, a byte 1 followed by
32 zero bytes: 33 bytes, not 32. -/
theorem C16_wide_recipientRand_is_not_32_bytes :
    recipientRandBytes (2 ^ 256) = 1 :: List.replicate 32 0
    ∧ (recipientRandBytes (2 ^ 256)).length ≠ 32 := by
  decide!

/-- C16 (amended): for `recipientRand` in `[0, 2^256)` the slice that `IsWinningTicket`
hashes after the signature has exactly 32 bytes; for `recipientRand` from `2^256` on it is
`recipientRand.Bytes()` unchanged, which has more than 32 bytes. -/
theorem C16_recipientRandBytes_length (bv : BrokerValidator) (ticket : Ticket)
    (sig : ByteSeq) (recipientRand : Int) (hNonneg : 0 ≤ recipientRand) :
    bv.IsWinningTicket ticket sig recipientRand =
        ticket.WinProb.map (fun winProb =>
          decide (big.Cmp (big.SetBytes
            (crypto.Keccak256 [sig, recipientRandBytes recipientRand])) winProb < 0))
    ∧ (recipientRand < 2 ^ 256 → (recipientRandBytes recipientRand).length = 32)
    ∧ (2 ^ 256 ≤ recipientRand →
        recipientRandBytes recipientRand = big.Bytes recipientRand
        ∧ 32 < (recipientRandBytes recipientRand).length) := by
  have hAbs : recipientRand.natAbs = recipientRand.toNat := by omega
  have hCast : ((recipientRand.toNat : Nat) : Int) = recipientRand :=
    Int.toNat_of_nonneg hNonneg
  refine ⟨?_, ?_, ?_⟩
  · cases h : ticket.WinProb <;> simp [BrokerValidator.IsWinningTicket, h, recipientRandBytes]
  · intro hBound
    have hNat : recipientRand.toNat < 2 ^ 256 := by
      have : ((recipientRand.toNat : Nat) : Int) < ((2 ^ 256 : Nat) : Int) := by
        rw [hCast]
        exact_mod_cast hBound
      exact_mod_cast this
    rw [recipientRandBytes, LeftPadBytes_eq_leftPad32, Bytes_eq_bigEndian, hAbs]
    exact length_leftPad32_bigEndian _ hNat
  · intro hBound
    have hNat : 2 ^ 256 ≤ recipientRand.toNat := by
      have : ((2 ^ 256 : Nat) : Int) ≤ ((recipientRand.toNat : Nat) : Int) := by
        rw [hCast]
        exact_mod_cast hBound
      exact_mod_cast this
    have hlen := length_bigEndian_gt _ hNat
    have hle : bytes32Size ≤ (big.Bytes recipientRand).length := by
      rw [Bytes_eq_bigEndian, hAbs]
      unfold bytes32Size
      omega
    have hEq : recipientRandBytes recipientRand = big.Bytes recipientRand := by
      simp [recipientRandBytes, LeftPadBytes, hle]
    refine ⟨hEq, ?_⟩
    rw [hEq, Bytes_eq_bigEndian, hAbs]
    exact hlen

/-- C16 (amended) at `recipientRand = 7` and at `recipientRand = 2^256`. -/
theorem C16_recipientRandBytes_length_witness :
    (0 : Int) ≤ 7 ∧ (7 : Int) < 2 ^ 256
    ∧ (recipientRandBytes 7).length = 32
    ∧ 32 < (recipientRandBytes (2 ^ 256)).length :=
  ⟨by decide, by norm_num,
    (C16_recipientRandBytes_length (stubValidator (false, none) true) (sampleTicket 7)
      [1, 2, 3] 7 (by decide)).2.1 (by norm_num),
    ((C16_recipientRandBytes_length (stubValidator (false, none) true) (sampleTicket 7)
      [1, 2, 3] (2 ^ 256) (by positivity)).2.2 (le_refl _)).2⟩

end pm

/-! ## Theorems on `parseURI` -/
namespace core

open Spec pm

/-- The function `Split` never returns an empty list. -/
theorem Split_ne_nil (s : ByteSeq) (sep : UInt8) : strings.Split s sep ≠ [] := by
  induction s with
  | nil => simp [strings.Split]
  | cons c cs ih =>
    unfold strings.Split
    split
    · simp
    · split <;> simp

/-- The first part of a split is the text before the first separator. -/
theorem Split_head (s : ByteSeq) (sep : UInt8) :
    (strings.Split s sep).getD 0 [] = before sep s := by
  induction s with
  | nil => simp [strings.Split, before]
  | cons c cs ih =>
    unfold strings.Split
    by_cases h : c = sep
    · simp [h, before]
    · simp only [h, if_false]
      have hne := Split_ne_nil cs sep
      cases hs : strings.Split cs sep with
      | nil => exact absurd hs hne
      | cons p ps =>
        rw [hs] at ih
        simp only [List.getD_cons_zero] at ih
        simp [before, h, ih, List.takeWhile_cons]

/-- The value of a text of digits, digit by digit. -/
theorem decimalValue_cons (c : UInt8) (cs : ByteSeq) :
    decimalValue (c :: cs) = (c.toNat - 48) * 10 ^ cs.length + decimalValue cs := by
  simp [decimalValue, Nat.ofDigits_append]
  ring

/-- The digit of a byte between `0` and `9`. -/
theorem digitValue_of_digit (c : UInt8) (h : 48 ≤ c.toNat ∧ c.toNat ≤ 57) :
    strconv.digitValue c = some (c.toNat - 48) := by
  simp [strconv.digitValue, h]

/-- A byte that is not between `0` and `9` is no digit of base 10. -/
theorem digitValue_of_not_digit (c : UInt8) (h : ¬ (48 ≤ c.toNat ∧ c.toNat ≤ 57)) :
    strconv.digitValue c = none ∨ ∃ d, strconv.digitValue c = some d ∧ 10 ≤ d := by
  unfold strconv.digitValue
  rw [if_neg h]
  split
  · right
    exact ⟨_, rfl, by omega⟩
  · left
    rfl

/-- The loop of `ParseUint`, started at a value below `2^64`, ends without error exactly
when the remaining text is made of digits and the whole number fits in 64 bits; it then
returns that number. -/
theorem parseLoop_spec (s0 s : ByteSeq) (n : Nat) (hn : n < 2 ^ 64) :
    ((strconv.parseLoop s0 s n).2 = none ↔
      ((s.all fun c => decide (48 ≤ c.toNat ∧ c.toNat ≤ 57)) = true
        ∧ n * 10 ^ s.length + decimalValue s < 2 ^ 64))
    ∧ ((strconv.parseLoop s0 s n).2 = none →
      (strconv.parseLoop s0 s n).1 = n * 10 ^ s.length + decimalValue s) := by
  induction s generalizing n with
  | nil =>
    simp only [strconv.parseLoop, decimalValue, List.all_nil, List.length_nil, pow_zero,
      mul_one, List.map_nil, List.reverse_nil, Nat.ofDigits_nil, add_zero, true_and, true_iff,
      implies_true, and_true]
    exact hn
  | cons c cs ih =>
    have hpow : 1 ≤ 10 ^ cs.length := Nat.one_le_pow _ _ (by norm_num)
    by_cases hd : 48 ≤ c.toNat ∧ c.toNat ≤ 57
    · have hval := digitValue_of_digit c hd
      have hlt : c.toNat - 48 < 10 := by omega
      have hexp : n * 10 ^ (c :: cs).length + decimalValue (c :: cs)
          = (n * 10 + (c.toNat - 48)) * 10 ^ cs.length + decimalValue cs := by
        rw [decimalValue_cons, List.length_cons, pow_succ]
        ring
      have hge : n * 10 + (c.toNat - 48) ≤ (n * 10 + (c.toNat - 48)) * 10 ^ cs.length :=
        Nat.le_mul_of_pos_right _ (by omega)
      by_cases hcut : n ≥ strconv.maxUint64 / 10 + 1
      · have hcut2 : 1844674407370955162 ≤ n := by
          have : strconv.maxUint64 / 10 + 1 = 1844674407370955162 := by
            norm_num [strconv.maxUint64]
          omega
        have hres : strconv.parseLoop s0 (c :: cs) n
            = (strconv.maxUint64, some (strconv.rangeError "ParseUint" s0)) := by
          simp only [strconv.parseLoop, hval]
          rw [if_neg (by omega), if_pos hcut]
        rw [hres, hexp]
        constructor
        · constructor
          · intro h
            simp at h
          · rintro ⟨_, h⟩
            omega
        · intro h
          simp at h
      · have hcut2 : n < 1844674407370955162 := by
          have : strconv.maxUint64 / 10 + 1 = 1844674407370955162 := by
            norm_num [strconv.maxUint64]
          omega
        have hmod : n * 10 % 2 ^ 64 = n * 10 := Nat.mod_eq_of_lt (by omega)
        by_cases hov : n * 10 + (c.toNat - 48) < 2 ^ 64
        · have hmod1 : (n * 10 + (c.toNat - 48)) % 2 ^ 64 = n * 10 + (c.toNat - 48) :=
            Nat.mod_eq_of_lt hov
          have hres : strconv.parseLoop s0 (c :: cs) n
              = strconv.parseLoop s0 cs (n * 10 + (c.toNat - 48)) := by
            simp only [strconv.parseLoop, hval]
            rw [if_neg (by omega), if_neg hcut]
            simp only [hmod, hmod1]
            rw [if_neg]
            simp only [strconv.maxUint64]
            omega
          rw [hres, hexp]
          have := ih (n * 10 + (c.toNat - 48)) hov
          simpa [hd] using this
        · have hmod1 : (n * 10 + (c.toNat - 48)) % 2 ^ 64
              = n * 10 + (c.toNat - 48) - 2 ^ 64 := by
            rw [Nat.mod_eq_sub_mod (by omega)]
            exact Nat.mod_eq_of_lt (by omega)
          have hres : strconv.parseLoop s0 (c :: cs) n
              = (strconv.maxUint64, some (strconv.rangeError "ParseUint" s0)) := by
            simp only [strconv.parseLoop, hval]
            rw [if_neg (by omega), if_neg hcut]
            simp only [hmod, hmod1]
            rw [if_pos]
            left
            omega
          rw [hres, hexp]
          constructor
          · constructor
            · intro h
              simp at h
            · rintro ⟨_, h⟩
              omega
          · intro h
            simp at h
    · have hres : (strconv.parseLoop s0 (c :: cs) n).2 ≠ none := by
        rcases digitValue_of_not_digit c hd with h | ⟨d, h, hd10⟩
        · simp [strconv.parseLoop, h]
        · simp only [strconv.parseLoop, h]
          rw [if_pos hd10]
          simp
      constructor
      · constructor
        · intro h
          exact absurd h hres
        · rintro ⟨h, _⟩
          simp [hd] at h
      · intro h
        exact absurd h hres

/-- Indexing from the front at `len - 1 - i` is indexing from the end at `i`. -/
theorem getD_fromEnd (parts : List ByteSeq) (i : Nat) (h : i < parts.length) :
    parts.getD (parts.length - 1 - i) [] = fromEnd parts i := by
  unfold fromEnd
  rw [List.getD_eq_getElem?_getD, List.getD_eq_getElem?_getD, List.getElem?_reverse h]

/-- The function `ParseUint` at base 10 and 64 bits ends without error exactly on a text of
decimal digits whose number fits in 64 bits, and then returns that number. -/
theorem ParseUint_spec (s : ByteSeq) :
    ((strconv.ParseUint s).2 = none ↔ (isDecimal s = true ∧ decimalValue s < 2 ^ 64))
    ∧ ((strconv.ParseUint s).2 = none → (strconv.ParseUint s).1 = decimalValue s) := by
  by_cases hs : s = []
  · subst hs
    simp [strconv.ParseUint, isDecimal]
  · have h := parseLoop_spec s s 0 (by norm_num)
    have hEmpty : s.isEmpty = false := by
      cases s with
      | nil => exact absurd rfl hs
      | cons _ _ => rfl
    simp only [strconv.ParseUint, hs, if_false, isDecimal, hEmpty, Bool.not_false,
      Bool.true_and]
    simpa using h

/-- The results of `parseURI` on a uri of 3 parts or more, part by part. -/
theorem parseURI_of_parts (uri : ByteSeq) (h : 3 ≤ (strings.Split uri 0x2f).length) :
    parseURI uri =
      ⟨fromEnd (strings.Split uri 0x2f) 2, fromEnd (strings.Split uri 0x2f) 1,
        (strconv.ParseUint (before 0x2e (fromEnd (strings.Split uri 0x2f) 0))).1,
        (strconv.ParseUint (before 0x2e (fromEnd (strings.Split uri 0x2f) 0))).2.map
          Error.numError⟩ := by
  have hnot : ¬ (strings.Split uri 0x2f).length < 3 := by omega
  have h2 : (strings.Split uri 0x2f).getD ((strings.Split uri 0x2f).length - 3) []
      = fromEnd (strings.Split uri 0x2f) 2 := by
    rw [← getD_fromEnd (strings.Split uri 0x2f) 2 (by omega)]
    congr 1
  have h1 : (strings.Split uri 0x2f).getD ((strings.Split uri 0x2f).length - 2) []
      = fromEnd (strings.Split uri 0x2f) 1 := by
    rw [← getD_fromEnd (strings.Split uri 0x2f) 1 (by omega)]
    congr 1
  have h0 : (strings.Split uri 0x2f).getD ((strings.Split uri 0x2f).length - 1) []
      = fromEnd (strings.Split uri 0x2f) 0 :=
    getD_fromEnd (strings.Split uri 0x2f) 0 (by omega)
  simp only [parseURI, hnot, if_false]
  rw [h2, h1, h0, Split_head]

/-- The text before the first separator, when the separator is there. -/
theorem before_append (a b : ByteSeq) (sep : UInt8) (h : ∀ c ∈ a, c ≠ sep) :
    before sep (a ++ sep :: b) = a := by
  induction a with
  | nil => simp [before]
  | cons c cs ih =>
    have hc : c ≠ sep := h c (by simp)
    have hcs : ∀ x ∈ cs, x ≠ sep := fun x hx => h x (by simp [hx])
    have := ih hcs
    simp only [before] at this ⊢
    rw [List.cons_append, List.takeWhile_cons, this]
    simp [hc]

/-- C20: a uri that splits on `/` into fewer than 3 parts gives ("", "", 0, BadURI); a uri
with 3 parts or more gives `mid` = the third part from the end and `profile` = the second
part from the end, and the error is nil exactly when the text of the last part before its
first `.` is made of decimal digits and its number fits in 64 bits, in which case `seqNo`
is that number. -/
theorem C20_parseURI_decomposition (uri : ByteSeq) :
    ((strings.Split uri 0x2f).length < 3 →
      parseURI uri = ⟨[], [], 0, some (.errorf "BadURI")⟩)
    ∧ (3 ≤ (strings.Split uri 0x2f).length →
      (parseURI uri).mid = fromEnd (strings.Split uri 0x2f) 2
      ∧ (parseURI uri).profile = fromEnd (strings.Split uri 0x2f) 1
      ∧ ((parseURI uri).err = none ↔
          (isDecimal (before 0x2e (fromEnd (strings.Split uri 0x2f) 0)) = true
            ∧ decimalValue (before 0x2e (fromEnd (strings.Split uri 0x2f) 0)) < 2 ^ 64))
      ∧ ((parseURI uri).err = none →
          (parseURI uri).seqNo
            = decimalValue (before 0x2e (fromEnd (strings.Split uri 0x2f) 0)))) := by
  constructor
  · intro h
    simp [parseURI, h]
  · intro h
    have hspec := ParseUint_spec (before 0x2e (fromEnd (strings.Split uri 0x2f) 0))
    rw [parseURI_of_parts uri h]
    refine ⟨rfl, rfl, ?_, ?_⟩
    · simp only [Option.map_eq_none']
      exact hspec.1
    · simp only [Option.map_eq_none']
      exact hspec.2

/-- A text without the separator is a single part. -/
theorem Split_of_not_mem (b : ByteSeq) (sep : UInt8) (h : sep ∉ b) :
    strings.Split b sep = [b] := by
  induction b with
  | nil => rfl
  | cons c cs ih =>
    have hc : c ≠ sep := fun e => h (by simp [e])
    have hcs : sep ∉ cs := fun e => h (by simp [e])
    simp [strings.Split, hc, ih hcs]

/-- Appending a separator and a text without separator adds one part. -/
theorem Split_append (a b : ByteSeq) (sep : UInt8) (h : sep ∉ b) :
    strings.Split (a ++ sep :: b) sep = strings.Split a sep ++ [b] := by
  induction a with
  | nil => simp [strings.Split, Split_of_not_mem b sep h]
  | cons c cs ih =>
    by_cases hc : c = sep
    · simp [strings.Split, hc, ih]
    · have hne := Split_ne_nil cs sep
      cases hs : strings.Split cs sep with
      | nil => exact absurd hs hne
      | cons p ps =>
        rw [hs] at ih
        simp [strings.Split, hc, ih, hs]

/-- The byte of a decimal digit character. -/
theorem utf8EncodeChar_digitChar (d : Nat) (h : d < 10) :
    String.utf8EncodeChar (Nat.digitChar d) = [UInt8.ofNat (48 + d)] := by
  interval_cases d <;> rfl

/-- The value of a text of digits followed by one more digit. -/
theorem decimalValue_append_singleton (D : ByteSeq) (b : UInt8) :
    decimalValue (D ++ [b]) = decimalValue D * 10 + (b.toNat - 48) := by
  simp [decimalValue, Nat.ofDigits_cons]
  ring

/-- The characters that `Nat.toDigits` puts in front of `ds`, as bytes: a non-empty text of
decimal digits that denotes the number. -/
theorem toDigitsCore_bytes (fuel n : Nat) (ds : List Char) (h : n < fuel) :
    ∃ D : ByteSeq,
      (Nat.toDigitsCore 10 fuel n ds).flatMap String.utf8EncodeChar
        = D ++ ds.flatMap String.utf8EncodeChar
      ∧ D ≠ [] ∧ (∀ c ∈ D, 48 ≤ c.toNat ∧ c.toNat ≤ 57) ∧ decimalValue D = n := by
  induction fuel generalizing n ds with
  | zero => omega
  | succ fuel ih =>
    have hd : n % 10 < 10 := Nat.mod_lt _ (by norm_num)
    have hbyte : (UInt8.ofNat (48 + n % 10)).toNat = 48 + n % 10 := by
      show (48 + n % 10) % 256 = 48 + n % 10
      omega
    by_cases h0 : n / 10 = 0
    · refine ⟨[UInt8.ofNat (48 + n % 10)], ?_, by simp, ?_, ?_⟩
      · simp [Nat.toDigitsCore, h0, utf8EncodeChar_digitChar _ hd]
      · intro c hc
        simp only [List.mem_singleton] at hc
        subst hc
        omega
      · simp only [decimalValue, List.map_cons, List.map_nil, List.reverse_cons,
          List.reverse_nil, List.nil_append, Nat.ofDigits_singleton, hbyte]
        omega
    · obtain ⟨D, hD, hne, hdig, hval⟩ := ih (n / 10) (Nat.digitChar (n % 10) :: ds) (by omega)
      refine ⟨D ++ [UInt8.ofNat (48 + n % 10)], ?_, by simp, ?_, ?_⟩
      · simp only [Nat.toDigitsCore, h0, if_false]
        rw [hD]
        simp [utf8EncodeChar_digitChar _ hd]
      · intro c hc
        rcases List.mem_append.mp hc with hc | hc
        · exact hdig c hc
        · simp only [List.mem_singleton] at hc
          subst hc
          omega
      · rw [decimalValue_append_singleton, hval, hbyte]
        omega

/-- The decimal text of a number is a non-empty text of decimal digits that denotes it. -/
theorem formatDecimal_spec (n : Nat) :
    formatDecimal n ≠ [] ∧ (∀ c ∈ formatDecimal n, 48 ≤ c.toNat ∧ c.toNat ≤ 57)
      ∧ decimalValue (formatDecimal n) = n := by
  obtain ⟨D, hD, hne, hdig, hval⟩ := toDigitsCore_bytes (n + 1) n [] (by omega)
  have hEq : formatDecimal n = D := by
    have : formatDecimal n = (Nat.toDigitsCore 10 (n + 1) n []).flatMap String.utf8EncodeChar :=
      rfl
    rw [this, hD]
    simp
  rw [hEq]
  exact ⟨hne, hdig, hval⟩

/-- The example of C20: a uri that ends in `/mid/profile/n.ts`, with no `/` in `mid` and
`profile` and `n` below `2^64` written in decimal, is parsed as (mid, profile, n, nil). -/
theorem parseURI_of_segment_uri (pre mid profile : ByteSeq) (n : Nat)
    (hmid : 0x2f ∉ mid) (hprofile : 0x2f ∉ profile) (hn : n < 2 ^ 64) :
    parseURI (pre ++ 0x2f :: (mid ++ 0x2f :: (profile ++ 0x2f ::
        (formatDecimal n ++ stringBytes ".ts")))) = ⟨mid, profile, n, none⟩ := by
  obtain ⟨hne, hdig, hval⟩ := formatDecimal_spec n
  have hts : stringBytes ".ts" = [0x2e, 0x74, 0x73] := by decide
  have hlast : (0x2f : UInt8) ∉ formatDecimal n ++ stringBytes ".ts" := by
    rw [hts]
    intro hmem
    rcases List.mem_append.mp hmem with hmem | hmem
    · have := hdig _ hmem
      have h47 : (0x2f : UInt8).toNat = 47 := rfl
      omega
    · revert hmem
      decide
  have hsplit : strings.Split (pre ++ 0x2f :: (mid ++ 0x2f :: (profile ++ 0x2f ::
      (formatDecimal n ++ stringBytes ".ts")))) 0x2f
      = strings.Split pre 0x2f ++ [mid, profile, formatDecimal n ++ stringBytes ".ts"] := by
    have e : pre ++ 0x2f :: (mid ++ 0x2f :: (profile ++ 0x2f ::
        (formatDecimal n ++ stringBytes ".ts")))
        = ((pre ++ 0x2f :: mid) ++ 0x2f :: profile) ++ 0x2f ::
          (formatDecimal n ++ stringBytes ".ts") := by
      simp
    rw [e, Split_append _ _ _ hlast, Split_append _ _ _ hprofile, Split_append _ _ _ hmid]
    simp
  have hlen : 3 ≤ (strings.Split (pre ++ 0x2f :: (mid ++ 0x2f :: (profile ++ 0x2f ::
      (formatDecimal n ++ stringBytes ".ts")))) 0x2f).length := by
    rw [hsplit]
    simp
  have hbefore : before 0x2e (formatDecimal n ++ stringBytes ".ts") = formatDecimal n := by
    rw [hts]
    apply before_append
    intro c hc heq
    have := hdig c hc
    rw [heq] at this
    have h46 : (0x2e : UInt8).toNat = 46 := rfl
    omega
  have hdec : isDecimal (formatDecimal n) = true := by
    have hEmpty : (formatDecimal n).isEmpty = false := by
      cases hf : formatDecimal n with
      | nil => exact absurd hf hne
      | cons _ _ => rfl
    simp only [isDecimal, hEmpty, Bool.not_false, Bool.true_and, List.all_eq_true,
      decide_eq_true_eq]
    exact hdig
  have hspec := ParseUint_spec (formatDecimal n)
  have herr : (strconv.ParseUint (formatDecimal n)).2 = none :=
    hspec.1.mpr ⟨hdec, by rw [hval]; exact hn⟩
  have hseq : (strconv.ParseUint (formatDecimal n)).1 = n := by
    rw [hspec.2 herr, hval]
  rw [parseURI_of_parts _ hlen, hsplit]
  simp [fromEnd, hbefore, herr, hseq]

/-- C20 at a uri of two parts and at a uri of four parts. -/
theorem C20_parseURI_decomposition_witness :
    (strings.Split (stringBytes "mid/prof") 0x2f).length < 3
    ∧ parseURI (stringBytes "mid/prof") = ⟨[], [], 0, some (.errorf "BadURI")⟩
    ∧ 3 ≤ (strings.Split (stringBytes "a/mid/prof/12.ts") 0x2f).length
    ∧ (parseURI (stringBytes "a/mid/prof/12.ts")).mid
        = fromEnd (strings.Split (stringBytes "a/mid/prof/12.ts") 0x2f) 2 :=
  ⟨by decide, (C20_parseURI_decomposition (stringBytes "mid/prof")).1 (by decide), by decide,
    ((C20_parseURI_decomposition (stringBytes "a/mid/prof/12.ts")).2 (by decide)).1⟩

end core
